import Mathlib

/-!
Verification development for the cholla repository sources.

The file shallowly embeds, in Lean 4, the parts of the sources that the
frozen claims are about:

* `src/io/ParameterMap.cpp` — parameter-file/CLI parsing, value conversion
  (`try_bool_`, `try_int64_` via a model of `strtoll` base 10), the
  `ParameterMap` constructor (table headings, key/value lines, collision
  checks in `Process_Full_Name`) and `warn_unused_parameters`.
  Strings are modelled as `List Char`; `std::map`/`std::set` as association
  lists / membership lists; thrown exceptions as `Except.error`.

* `testing_utilities.cpp` — `ulpsDistanceDbl` / `nearlyEqualDbl`.
  A `double` is modelled by its 64-bit pattern (a `Nat`); the `int64_t`
  reinterpretation, NaN/Inf classification and IEEE `==` are spelled out on
  the bit pattern, and the finite value is the exact rational it denotes.

* the exact (Toro) Riemann solver in `exact.cpp` (`guessp`, `prefun`,
  `starpu`, `sample`, `Calculate_Exact_Fluxes`), embedded over `ℝ`
  (exact real arithmetic as the idealisation of `double` arithmetic).

Definitions mirror the sources; theorems at the end settle the claims.
-/

/-! ## Part 1: ParameterMap.cpp -/

/-- C `isspace` in the default locale (the characters space, \t, \n,
vertical tab, form feed, \r). -/
def isCSpace (c : Char) : Bool :=
  c == ' ' || c == '\t' || c == '\n' || c == '\x0b' || c == '\x0c' || c == '\r'

/-- The error codes of `param_details::TypeErr` other than `none`
(`none` is represented by `Except.ok`). -/
inductive TypeErr where
  | generic
  | boolean
  | out_of_range
deriving DecidableEq, Repr

/-- `param_details::try_bool_`: the value is written only on success, so the
out-parameter convention is modelled by `Except`. -/
def try_bool_ (s : List Char) : Except TypeErr Bool :=
  if s = ['t', 'r', 'u', 'e'] then .ok true
  else if s = ['f', 'a', 'l', 's', 'e'] then .ok false
  else .error .boolean

/-- `INT64_MAX`. -/
def int64Max : Int := 2 ^ 63 - 1

/-- `INT64_MIN`. -/
def int64Min : Int := -(2 ^ 63)

/-- Numeric value of a digit string (most significant digit first). -/
def digitsVal (ds : List Char) : Nat :=
  ds.foldl (fun n c => 10 * n + (c.toNat - '0'.toNat)) 0

/-- Result of the `std::strtoll(str, &ptr_end, 10)` call made by
`try_int64_`: the (clamped) value, whether `errno` was set to `ERANGE`,
whether any digits were consumed (if not, `ptr_end` is the start of the
string), and the characters left after the consumed prefix. -/
structure Strtoll10 where
  value : Int
  rangeErr : Bool
  gotDigits : Bool
  rest : List Char
deriving DecidableEq, Repr

/-- Model of `std::strtoll` with base 10: skip C whitespace, an optional
sign, then a maximal run of decimal digits; on overflow the value is clamped
to `LLONG_MIN`/`LLONG_MAX` (= `INT64_MIN`/`INT64_MAX` on the supported
platforms) and `ERANGE` is reported. -/
def strtoll10 (s : List Char) : Strtoll10 :=
  let afterWs := s.dropWhile isCSpace
  let signBody : Bool × List Char :=
    match afterWs with
    | [] => (false, [])
    | c :: t => if c = '-' then (true, t) else if c = '+' then (false, t) else (false, c :: t)
  let digs := signBody.2.takeWhile Char.isDigit
  let rest := signBody.2.dropWhile Char.isDigit
  let v : Int := if signBody.1 then -(digitsVal digs : Int) else (digitsVal digs : Int)
  if v < int64Min then ⟨int64Min, true, !digs.isEmpty, rest⟩
  else if int64Max < v then ⟨int64Max, true, !digs.isEmpty, rest⟩
  else ⟨v, false, !digs.isEmpty, rest⟩

/-- `param_details::try_int64_`: `ERANGE` is checked first, then whether the
conversion consumed the whole string (`(str.data() + str.size()) != ptr_end`);
when no conversion was performed `ptr_end` is the start of the string, which
equals the end only for the empty string. -/
def try_int64_ (s : List Char) : Except TypeErr Int :=
  let r := strtoll10 s
  if r.rangeErr then .error .out_of_range
  else if (if r.gotDigits then !r.rest.isEmpty else !s.isEmpty) then .error .generic
  else .ok r.value

/-- The file-local `rstrip`: drop trailing C whitespace. -/
def rstrip (s : List Char) : List Char :=
  ((s.reverse).dropWhile isCSpace).reverse

/-- The file-local `my_trim`: drop leading C whitespace, then `rstrip`. -/
def my_trim (s : List Char) : List Char :=
  rstrip (s.dropWhile isCSpace)

/-- `Try_Extract_Key_Value_View`: split a buffer at the first `'='`;
if the `'='` is absent, the first character, or the last character, both
views are empty (signalling "skip this input"). -/
def Try_Extract_Key_Value_View (s : List Char) : List Char × List Char :=
  match s.findIdx? (fun c => c == '=') with
  | none => ([], [])
  | some pos =>
      if pos = 0 then ([], [])
      else if pos + 1 = s.length then ([], [])
      else (s.take pos, s.drop (pos + 1))

/-- The characters allowed in a full parameter/table name by
`Process_Full_Name`. -/
def validNameChar (c : Char) : Bool :=
  c == '.' || c == '_' || c == '-' || c.isAlphanum

/-- The distinct failure messages `Process_Full_Name` can return. -/
inductive PFNErr where
  | badChar
  | endsWithDot
  | startsWithDot
  | contiguousDots
  | collidesWithParam (tname : List Char)
deriving DecidableEq, Repr

/-- `std::string::rfind('.', start)` : the largest index `i ≤ start` (and
`i < s.length`) with `s[i] = '.'`. -/
def rfindDot (s : List Char) : Nat → Option Nat
  | 0 => if s.get? 0 = some '.' then some 0 else none
  | n + 1 => if s.get? (n + 1) = some '.' then some (n + 1) else rfindDot s n

/-- The `while (true)` loop of `Process_Full_Name`, stepping through the
`'.'`-delimited prefixes of `full` from the right.  The table set is mutated
(prefixes are inserted) even when an error is returned, exactly as in the
source.  `fuel` only bounds the recursion; the wrapper passes enough fuel
that it is never exhausted (each iteration strictly decreases `start`). -/
def pfnLoop (full : List Char) (entryNames : List (List Char)) :
    Nat → Nat → List (List Char) → Option PFNErr × List (List Char)
  | 0, _, tables => (none, tables)
  | fuel + 1, start, tables =>
      match rfindDot full start with
      | none => (none, tables)
      | some pos =>
          if pos = full.length - 1 then (some .endsWithDot, tables)
          else if pos = 0 then (some .startsWithDot, tables)
          else if pos = start then (some .contiguousDots, tables)
          else
            let tname := full.take pos
            if tname ∈ tables then (none, tables)
            else if tname ∈ entryNames then
              (some (.collidesWithParam tname), tname :: tables)
            else pfnLoop full entryNames fuel (pos - 1) (tname :: tables)

/-- `Process_Full_Name`: validate the characters of a full name, then check
its dot-delimited prefixes (registering them as tables) for emptiness and
for collisions with existing parameter names.  Returns the error (if any)
and the updated table set. -/
def Process_Full_Name (full : List Char) (tables : List (List Char))
    (entryNames : List (List Char)) : Option PFNErr × List (List Char) :=
  if full.any (fun c => !validNameChar c) then (some .badChar, tables)
  else pfnLoop full entryNames (full.length + 1) (full.length - 1) tables

/-- The state built up by the `ParameterMap` constructor: the explicitly
declared table headers, the full table set (including implied prefixes), the
current `[table]` heading, and the stored `name ↦ value-string` entries. -/
structure PMState where
  explicitTables : List (List Char)
  allTables : List (List Char)
  curTable : List Char
  entries : List (List Char × List Char)
deriving DecidableEq, Repr

/-- The distinct `std::runtime_error` throw sites of the constructor. -/
inductive PMError where
  | headerNoClose
  | emptyHeader
  | duplicateHeader (h : List Char)
  | headerParamCollision (h : List Char)
  | headerNameErr (h : List Char) (e : PFNErr)
  | keyContainsDot (k : List Char)
  | paramNameErr (n : List Char) (e : PFNErr)
  | cliNameErr (n : List Char) (e : PFNErr)
deriving DecidableEq, Repr

/-- The names of the stored parameters. -/
def entryNamesOf (entries : List (List Char × List Char)) : List (List Char) :=
  entries.map Prod.fst

/-- `entries_[k] = {v, false}` on a `std::map`: insert or overwrite. -/
def setEntry (entries : List (List Char × List Char)) (k v : List Char) :
    List (List Char × List Char) :=
  match entries with
  | [] => [(k, v)]
  | (k', v') :: t => if k' = k then (k, v) :: t else (k', v') :: setEntry t k v

/-- One iteration of the constructor's file-reading loop, applied to the raw
`fgets` buffer (which includes the trailing newline, if the line had one):
skip blank/comment lines, parse `[table]` headings with their duplicate- and
collision-checks, and parse `key = value` lines. -/
def processFileBuffer (st : PMState) (buff : List Char) : Except PMError PMState :=
  match buff with
  | [] => .ok st
  | c :: _ =>
      if c = '\n' ∨ c = '#' ∨ c = ';' then .ok st
      else if c = '[' then
        let view := rstrip buff
        if view.getLast? ≠ some ']' then .error .headerNoClose
        else
          let header := (view.drop 1).dropLast
          if header = [] then .error .emptyHeader
          else if header ∈ st.explicitTables then .error (.duplicateHeader header)
          else if header ∈ entryNamesOf st.entries then
            .error (.headerParamCollision header)
          else
            let r := Process_Full_Name header st.allTables (entryNamesOf st.entries)
            match r.1 with
            | some e => .error (.headerNameErr header e)
            | none =>
                .ok { st with explicitTables := header :: st.explicitTables,
                              allTables := header :: r.2,
                              curTable := header }
      else
        let kv := Try_Extract_Key_Value_View buff
        if kv.1 = [] then .ok st
        else
          let value := my_trim kv.2
          if '.' ∈ kv.1 then .error (.keyContainsDot kv.1)
          else
            let full := (if st.curTable ≠ [] then st.curTable ++ ['.'] else []) ++ kv.1
            let r := Process_Full_Name full st.allTables (entryNamesOf st.entries)
            match r.1 with
            | none => .ok { st with allTables := r.2,
                                    entries := setEntry st.entries full value }
            | some e => .error (.paramNameErr full e)

/-- One iteration of the constructor's command-line loop (no heading or
comment handling, and no '.'-in-key check). -/
def processCliToken (st : PMState) (tok : List Char) : Except PMError PMState :=
  let kv := Try_Extract_Key_Value_View tok
  if kv.1 = [] then .ok st
  else
    let value := my_trim kv.2
    let r := Process_Full_Name kv.1 st.allTables (entryNamesOf st.entries)
    match r.1 with
    | some e => .error (.cliNameErr kv.1 e)
    | none => .ok { st with allTables := r.2,
                            entries := setEntry st.entries kv.1 value }

/-- The state at the start of the constructor. -/
def initPMState : PMState := ⟨[], [], [], []⟩

/-- The `ParameterMap` constructor: fold the file lines (as read, `fgets`
appends each line's newline to the buffer) and then the command-line tokens;
a thrown exception aborts the whole construction. -/
def ParameterMap_construct (fileLines : List (List Char)) (cli : List (List Char)) :
    Except PMError PMState :=
  let afterFile := fileLines.foldl
    (fun acc line =>
      match acc with
      | .error e => .error e
      | .ok st => processFileBuffer st (line ++ ['\n']))
    (.ok initPMState)
  cli.foldl
    (fun acc tok =>
      match acc with
      | .error e => .error e
      | .ok st => processCliToken st tok)
    afterFile

/-- An entry as seen by `warn_unused_parameters`: the stored value string
and whether the parameter was ever accessed. -/
structure PMEntry where
  paramStr : List Char
  accessed : Bool
deriving DecidableEq, Repr

/-- `ParameterMap::warn_unused_parameters`: count the stored parameters that
were never accessed and are not in `ignore`; `CHOLLA_ERROR` (modelled as
`Except.error`, carrying the offending name and value) aborts on the first
one when `abortOnWarning` is set, otherwise each one emits a warning naming
the parameter and its value unless `suppress` is set.  On normal return the
value is the count together with the emitted warnings. -/
def warn_unused_parameters (entries : List (List Char × PMEntry))
    (ignore : List (List Char)) (abortOnWarning suppress : Bool) :
    Except (List Char × List Char) (Nat × List (List Char × List Char)) :=
  match entries with
  | [] => .ok (0, [])
  | (name, pe) :: t =>
      if pe.accessed = false ∧ name ∉ ignore then
        if abortOnWarning then .error (name, pe.paramStr)
        else
          match warn_unused_parameters t ignore abortOnWarning suppress with
          | .error e => .error e
          | .ok (n, ws) =>
              .ok (n + 1, if suppress then ws else (name, pe.paramStr) :: ws)
      else warn_unused_parameters t ignore abortOnWarning suppress

/-! ## Part 2: testing_utilities.cpp -/

/-- The 11-bit exponent field of a `double` bit pattern. -/
def dblExp (b : Nat) : Nat := b / 2 ^ 52 % 2 ^ 11

/-- The 52-bit fraction field of a `double` bit pattern. -/
def dblFrac (b : Nat) : Nat := b % 2 ^ 52

/-- `std::isnan` on the bit pattern. -/
def dblIsNan (b : Nat) : Prop := dblExp b = 2047 ∧ dblFrac b ≠ 0

instance (b : Nat) : Decidable (dblIsNan b) := by unfold dblIsNan; infer_instance

/-- `std::isinf` on the bit pattern. -/
def dblIsInf (b : Nat) : Prop := dblExp b = 2047 ∧ dblFrac b = 0

instance (b : Nat) : Decidable (dblIsInf b) := by unfold dblIsInf; infer_instance

/-- The two zero patterns `+0.0` and `-0.0`. -/
def dblIsZero (b : Nat) : Prop := b = 0 ∨ b = 2 ^ 63

instance (b : Nat) : Decidable (dblIsZero b) := by unfold dblIsZero; infer_instance

/-- The `std::memcpy` reinterpretation of the bit pattern as an `int64_t`
(two's complement). -/
def int64OfBits (b : Nat) : Int :=
  if b < 2 ^ 63 then (b : Int) else (b : Int) - 2 ^ 64

/-- IEEE-754 `a == b` on bit patterns: never true when one side is NaN, and
otherwise true exactly for identical patterns or for `+0.0 == -0.0`
(distinct non-NaN patterns denote distinct extended-real values). -/
def ieeeEq (a b : Nat) : Prop :=
  ¬dblIsNan a ∧ ¬dblIsNan b ∧ (a = b ∨ (dblIsZero a ∧ dblIsZero b))

instance (a b : Nat) : Decidable (ieeeEq a b) := by unfold ieeeEq; infer_instance

/-- The exact rational value of a finite `double` bit pattern (subnormals
use exponent field 0; normals carry the implicit leading bit). -/
def dblVal (b : Nat) : ℚ :=
  (if 2 ^ 63 ≤ b then (-1 : ℚ) else 1) *
    (if dblExp b = 0 then (dblFrac b : ℚ) * 2 / 2 ^ 1075
     else ((2 ^ 52 + dblFrac b : ℚ)) * 2 ^ dblExp b / 2 ^ 1075)

/-- `testingUtilities::ulpsDistanceDbl` on bit patterns. -/
def ulpsDistanceDbl (a b : Nat) : Int :=
  if ieeeEq a b then 0
  else if dblIsNan a ∨ dblIsNan b then int64Max
  else if dblIsInf a ∨ dblIsInf b then int64Max
  else if ¬(int64OfBits a < 0 ↔ int64OfBits b < 0) then int64Max
  else |int64OfBits a - int64OfBits b|

/-- The comparison `std::abs(a - b) <= eps` of `nearlyEqualDbl`, on the
model: false whenever a NaN or an infinity is involved (the comparison on
NaN is false, and `|±inf - finite|` is `+inf`), and the exact rational
comparison on finite patterns. -/
def dblAbsDiffLe (a b : Nat) (eps : ℚ) : Prop :=
  ¬dblIsNan a ∧ ¬dblIsNan b ∧ ¬dblIsInf a ∧ ¬dblIsInf b ∧ |dblVal a - dblVal b| ≤ eps

instance (a b : Nat) (eps : ℚ) : Decidable (dblAbsDiffLe a b eps) := by
  unfold dblAbsDiffLe; infer_instance

/-- `testingUtilities::nearlyEqualDbl` with its default tolerances
(`ulpsEpsilon = 4`, `fixedEpsilon = 1e-14`): the ULP check, then the
absolute check, else failure. -/
def nearlyEqualDbl (a b : Nat) : Bool :=
  if ulpsDistanceDbl a b ≤ 4 then true
  else if dblAbsDiffLe a b (1 / 10 ^ 14) then true
  else false

/-! ## Part 3: the exact (Toro) Riemann solver, `exact.cpp`

Machine `double` arithmetic is idealised as exact real arithmetic; `pow`
is `Real.rpow`, `sqrt` is `Real.sqrt`, `fmax` is `max`. -/

/-- `TINY_NUMBER` from `global.h` (the header is not among the provided
sources; the cholla convention `1e-20` is used, and the proofs below depend
only on `0 < TINY_NUMBER ≤ 3`). -/
noncomputable def TINY_NUMBER : ℝ := 1e-20

/-- The PVRS pressure estimate of `guessp` before its sign clamp. -/
noncomputable def ppvRaw (dl vxl pl cl dr vxr pr cr : ℝ) : ℝ :=
  0.5 * (pl + pr) + 0.125 * (vxl - vxr) * (dl + dr) * (cl + cr)

/-- `if (ppv < 0.0) ppv = 0.0;` — the PVRS estimate after the clamp. -/
noncomputable def ppvClamped (dl vxl pl cl dr vxr pr cr : ℝ) : ℝ :=
  if ppvRaw dl vxl pl cl dr vxr pr cr < 0 then 0 else ppvRaw dl vxl pl cl dr vxr pr cr

/-- `guessp`: two-shock (TSRS) guess built on the clamped PVRS estimate,
itself clamped to `TOL = 1e-6` when negative. -/
noncomputable def guessp (dl vxl pl cl dr vxr pr cr gamma : ℝ) : ℝ :=
  let ppv := ppvClamped dl vxl pl cl dr vxr pr cr
  let gl := Real.sqrt ((2 / ((gamma + 1) * dl)) / (((gamma - 1) / (gamma + 1)) * pl + ppv))
  let gr := Real.sqrt ((2 / ((gamma + 1) * dr)) / (((gamma - 1) / (gamma + 1)) * pr + ppv))
  let p0 := (gl * pl + gr * pr - (vxr - vxl)) / (gl + gr)
  if p0 < 0 then 1e-6 else p0

/-- `prefun`: the pressure function of one side and its derivative;
rarefaction branch for `p ≤ pk`, shock branch otherwise. -/
noncomputable def prefun (p dk pk ck gamma : ℝ) : ℝ × ℝ :=
  if p ≤ pk then
    ((2 / (gamma - 1)) * ck * ((p / pk) ^ ((gamma - 1) / (2 * gamma)) - 1),
     (1 / (dk * ck)) * (p / pk) ^ (-((gamma + 1) / (2 * gamma))))
  else
    ((p - pk) * Real.sqrt ((2 / (gamma + 1) / dk) / ((gamma - 1) / (gamma + 1) * pk + p)),
     (1 - 0.5 * (p - pk) / ((gamma - 1) / (gamma + 1) * pk + p)) *
       Real.sqrt ((2 / (gamma + 1) / dk) / ((gamma - 1) / (gamma + 1) * pk + p)))

/-- One body of `starpu`'s Newton loop, from the previous iterate `pold`:
the new iterate together with the two pressure-function values `fl`, `fr`
evaluated at `pold`. -/
noncomputable def starpuStep (dl vxl pl cl dr vxr pr cr gamma pold : ℝ) : ℝ × ℝ × ℝ :=
  let L := prefun pold dl pl cl gamma
  let R := prefun pold dr pr cr gamma
  (pold - (L.1 + R.1 + vxr - vxl) / (L.2 + R.2), L.1, R.1)

/-- The Newton loop `for (i = 0; i <= nriter; i++)` of `starpu`, by the
number of loop bodies still allowed to run (`nriter = 20` allows 21).
Returns the final `*p`, the last `fl` and `fr`, and the number of loop
bodies that were executed.  A body computes the Newton iterate, breaks if
`change = 2.0*fabs((*p - pold)/(*p + pold)) ≤ TOL = 1e-6` (keeping that
iterate), and otherwise clamps a negative iterate to `1e-6` before
continuing; on normal loop exit the (clamped) last iterate is kept. -/
noncomputable def starpuGo (dl vxl pl cl dr vxr pr cr gamma : ℝ) :
    Nat → ℝ → ℝ × ℝ × ℝ × Nat
  | 0, pold => (pold, 0, 0, 0)
  | 1, pold =>
      let s := starpuStep dl vxl pl cl dr vxr pr cr gamma pold
      if 2 * |(s.1 - pold) / (s.1 + pold)| ≤ 1e-6 then (s.1, s.2.1, s.2.2, 1)
      else ((if s.1 < 0 then 1e-6 else s.1), s.2.1, s.2.2, 1)
  | m + 2, pold =>
      let s := starpuStep dl vxl pl cl dr vxr pr cr gamma pold
      if 2 * |(s.1 - pold) / (s.1 + pold)| ≤ 1e-6 then (s.1, s.2.1, s.2.2, 1)
      else
        let r := starpuGo dl vxl pl cl dr vxr pr cr gamma (m + 1)
          (if s.1 < 0 then 1e-6 else s.1)
        (r.1, r.2.1, r.2.2.1, r.2.2.2 + 1)

/-- `starpu`: star-region pressure from the Newton loop started at the
`guessp` estimate, and star-region velocity
`0.5*(vxl + vxr + fr - fl)` from the last evaluated `fl`, `fr`. -/
noncomputable def starpu (dl vxl pl cl dr vxr pr cr gamma : ℝ) : ℝ × ℝ :=
  let r := starpuGo dl vxl pl cl dr vxr pr cr gamma 21
    (guessp dl vxl pl cl dr vxr pr cr gamma)
  (r.1, 0.5 * (vxl + vxr + r.2.2.1 - r.2.1))

/-- The number of Newton-loop bodies `starpu` executes. -/
noncomputable def starpuCount (dl vxl pl cl dr vxr pr cr gamma : ℝ) : Nat :=
  (starpuGo dl vxl pl cl dr vxr pr cr gamma 21
    (guessp dl vxl pl cl dr vxr pr cr gamma)).2.2.2

/-- `sample`: the solution `(d, u, p)` at the interface `ξ = 0`, given the
star-region pressure `pm` and velocity `vm`. -/
noncomputable def sample (pm vm dl vxl pl cl dr vxr pr cr gamma : ℝ) : ℝ × ℝ × ℝ :=
  if 0 ≤ vm then
    if pm ≤ pl then
      if 0 ≤ vxl - cl then (dl, vxl, pl)
      else
        let cml := cl * (pm / pl) ^ ((gamma - 1) / (2 * gamma))
        if vm - cml < 0 then (dl * (pm / pl) ^ (1 / gamma), vm, pm)
        else
          let c := (2 / (gamma + 1)) * (cl + ((gamma - 1) / 2) * vxl)
          (dl * (c / cl) ^ (2 / (gamma - 1)),
           (2 / (gamma + 1)) * (cl + ((gamma - 1) / 2) * vxl),
           pl * (c / cl) ^ (2 * gamma / (gamma - 1)))
    else
      let pml := pm / pl
      if 0 ≤ vxl - cl * Real.sqrt ((gamma + 1) / (2 * gamma) * pml + (gamma - 1) / (2 * gamma))
      then (dl, vxl, pl)
      else
        (dl * (pml + (gamma - 1) / (gamma + 1)) / (pml * ((gamma - 1) / (gamma + 1)) + 1),
         vm, pm)
  else
    if pr < pm then
      let pmr := pm / pr
      if vxr + cr * Real.sqrt ((gamma + 1) / (2 * gamma) * pmr + (gamma - 1) / (2 * gamma)) ≤ 0
      then (dr, vxr, pr)
      else
        (dr * (pmr + (gamma - 1) / (gamma + 1)) / (pmr * ((gamma - 1) / (gamma + 1)) + 1),
         vm, pm)
    else
      if vxr + cr ≤ 0 then (dr, vxr, pr)
      else
        let cmr := cr * (pm / pr) ^ ((gamma - 1) / (2 * gamma))
        if 0 ≤ vm + cmr then (dr * (pm / pr) ^ (1 / gamma), vm, pm)
        else
          let c := (2 / (gamma + 1)) * (cr - ((gamma - 1) / 2) * vxr)
          (dr * (c / cr) ^ (2 / (gamma - 1)),
           (2 / (gamma + 1)) * (-cr + ((gamma - 1) / 2) * vxr),
           pr * (c / cr) ^ (2 * gamma / (gamma - 1)))

/-- The result of `Calculate_Exact_Fluxes`: the six interface fluxes
(density, x-momentum, y-momentum, z-momentum, energy, dual-energy), the
sampled interface state `(ds, us, ps)`, and the star-region values. -/
structure ExactFluxes where
  f0 : ℝ
  f1 : ℝ
  f2 : ℝ
  f3 : ℝ
  f4 : ℝ
  f5 : ℝ
  sampledD : ℝ
  sampledU : ℝ
  sampledP : ℝ
  starPm : ℝ
  starUm : ℝ

/-- The flux-assembly block at the end of `Calculate_Exact_Fluxes`:
the tangential-momentum and dual-energy fluxes, and the total energy `Es`,
are upwinded on the sign of the sampled velocity `us`. -/
noncomputable def assembleExact (ds us ps vyl vyr vzl vzr gel ger pm um gamma : ℝ) :
    ExactFluxes :=
  if 0 ≤ us then
    ⟨ds * us, ds * us * us + ps, ds * us * vyl, ds * us * vzl,
     (ps / (gamma - 1) + 0.5 * ds * (us * us + vyl * vyl + vzl * vzl) + ps) * us,
     ds * us * gel, ds, us, ps, pm, um⟩
  else
    ⟨ds * us, ds * us * us + ps, ds * us * vyr, ds * us * vzr,
     (ps / (gamma - 1) + 0.5 * ds * (us * us + vyr * vyr + vzr * vzr) + ps) * us,
     ds * us * ger, ds, us, ps, pm, um⟩

/-- `Calculate_Exact_Fluxes` (with the dual-energy field `DE` enabled):
`cW = [dl, dr, mxl, mxr, myl, myr, mzl, mzr, El, Er, (ge*d)l, (ge*d)r]`.
Primitives are derived, the left/right pressures floored at `TINY_NUMBER`,
the star region solved by `starpu`, the interface sampled by `sample`, and
the fluxes assembled. -/
noncomputable def Calculate_Exact_Fluxes (cW : Fin 12 → ℝ) (gamma : ℝ) : ExactFluxes :=
  let dl := cW 0
  let dr := cW 1
  let vxl := cW 2 / dl
  let vxr := cW 3 / dr
  let vyl := cW 4 / dl
  let vyr := cW 5 / dr
  let vzl := cW 6 / dl
  let vzr := cW 7 / dr
  let pl := max ((cW 8 - 0.5 * dl * (vxl * vxl + vyl * vyl + vzl * vzl)) * (gamma - 1))
    TINY_NUMBER
  let pr := max ((cW 9 - 0.5 * dr * (vxr * vxr + vyr * vyr + vzr * vzr)) * (gamma - 1))
    TINY_NUMBER
  let gel := cW 10 / dl
  let ger := cW 11 / dr
  let cl := Real.sqrt (gamma * pl / dl)
  let cr := Real.sqrt (gamma * pr / dr)
  let pu := starpu dl vxl pl cl dr vxr pr cr gamma
  let s := sample pu.1 pu.2 dl vxl pl cl dr vxr pr cr gamma
  assembleExact s.1 s.2.1 s.2.2 vyl vyr vzl vzr gel ger pu.1 pu.2 gamma

/-- The floored left pressure derived by `Calculate_Exact_Fluxes`. -/
noncomputable def flooredPl (cW : Fin 12 → ℝ) (gamma : ℝ) : ℝ :=
  max ((cW 8 - 0.5 * cW 0 * ((cW 2 / cW 0) * (cW 2 / cW 0) + (cW 4 / cW 0) * (cW 4 / cW 0)
    + (cW 6 / cW 0) * (cW 6 / cW 0))) * (gamma - 1)) TINY_NUMBER

/-- The floored right pressure derived by `Calculate_Exact_Fluxes`. -/
noncomputable def flooredPr (cW : Fin 12 → ℝ) (gamma : ℝ) : ℝ :=
  max ((cW 9 - 0.5 * cW 1 * ((cW 3 / cW 1) * (cW 3 / cW 1) + (cW 5 / cW 1) * (cW 5 / cW 1)
    + (cW 7 / cW 1) * (cW 7 / cW 1))) * (gamma - 1)) TINY_NUMBER

/-! ## Helper lemmas on lists -/

theorem all_takeWhile_self {p : Char → Bool} : ∀ l : List Char, (l.takeWhile p).all p = true := by
  intro l
  induction l with
  | nil => rfl
  | cons a t ih =>
      by_cases h : p a
      · simp [List.takeWhile_cons, h, ih]
      · simp [List.takeWhile_cons, h]

theorem takeWhile_eq_self_of_all {p : Char → Bool} :
    ∀ {l : List Char}, l.all p = true → l.takeWhile p = l := by
  intro l
  induction l with
  | nil => intro _; rfl
  | cons a t ih =>
      intro h
      simp only [List.all_cons, Bool.and_eq_true] at h
      simp [List.takeWhile_cons, h.1, ih h.2]

theorem dropWhile_eq_nil_of_all {p : Char → Bool} :
    ∀ {l : List Char}, l.all p = true → l.dropWhile p = [] := by
  intro l
  induction l with
  | nil => intro _; rfl
  | cons a t ih =>
      intro h
      simp only [List.all_cons, Bool.and_eq_true] at h
      simp [List.dropWhile_cons, h.1, ih h.2]

theorem dropWhile_append_of_all {p : Char → Bool} :
    ∀ {w r : List Char}, w.all p = true → (w ++ r).dropWhile p = r.dropWhile p := by
  intro w r
  induction w with
  | nil => intro _; rfl
  | cons a t ih =>
      intro h
      simp only [List.all_cons, Bool.and_eq_true] at h
      simp [List.dropWhile_cons, h.1, ih h.2]

/-! ## Claim C7: value conversion (`try_bool_`, `try_int64_`) -/

/-- The value denoted by an optional sign followed by a digit string. -/
def signedVal (sgn ds : List Char) : Int :=
  if sgn = ['-'] then -(digitsVal ds : Int) else (digitsVal ds : Int)

/-- The predicate of the claim's words, for comparison with `try_int64_`:
"the entire string is a base-10 integer representable in 64 bits"
(an optional sign followed by at least one decimal digit and nothing else,
with the value in the `int64` range). -/
def specBase10Int64 (s : List Char) : Prop :=
  ∃ sgn ds, (sgn = [] ∨ sgn = ['+'] ∨ sgn = ['-']) ∧ ds ≠ [] ∧ ds.all Char.isDigit = true ∧
    s = sgn ++ ds ∧ int64Min ≤ signedVal sgn ds ∧ signedVal sgn ds ≤ int64Max

/-- What `strtoll` base 10 actually accepts as a full-string parse: optional
leading C whitespace, an optional sign, then one or more decimal digits
reaching the end of the string, denoting `v` (before any range clamping). -/
def strtollShape (s : List Char) (v : Int) : Prop :=
  ∃ w sgn ds, w.all isCSpace = true ∧ (sgn = [] ∨ sgn = ['+'] ∨ sgn = ['-']) ∧ ds ≠ [] ∧
    ds.all Char.isDigit = true ∧ s = w ++ sgn ++ ds ∧ v = signedVal sgn ds

theorem isCSpace_false_of_isDigit {c : Char} (h : c.isDigit = true) : isCSpace c = false := by
  by_contra hc
  rw [Bool.not_eq_false] at hc
  simp only [isCSpace, Bool.or_eq_true, beq_iff_eq] at hc
  rcases hc with ((((h1 | h1) | h1) | h1) | h1) | h1 <;> subst h1 <;>
    exact absurd h (by decide)

/-- The `strtoll` model's result on a fully-parsed numeric string, as a
function of the denoted value (range clamping included). -/
def strtollClamped (v : Int) : Strtoll10 :=
  if v < int64Min then ⟨int64Min, true, true, []⟩
  else if int64Max < v then ⟨int64Max, true, true, []⟩
  else ⟨v, false, true, []⟩

theorem strtoll10_of_shape {w sgn ds : List Char}
    (hw : w.all isCSpace = true) (hsgn : sgn = [] ∨ sgn = ['+'] ∨ sgn = ['-'])
    (hds : ds ≠ []) (hdig : ds.all Char.isDigit = true) :
    strtoll10 (w ++ sgn ++ ds) = strtollClamped (signedVal sgn ds) := by
  obtain ⟨d, t, rfl⟩ : ∃ d t, ds = d :: t := by
    cases ds with
    | nil => exact absurd rfl hds
    | cons d t => exact ⟨d, t, rfl⟩
  have hd : d.isDigit = true ∧ t.all Char.isDigit = true := by simpa using hdig
  have hne : d ≠ '-' := by intro h; subst h; exact absurd hd.1 (by decide)
  have hne' : d ≠ '+' := by intro h; subst h; exact absurd hd.1 (by decide)
  have htake : (d :: t).takeWhile Char.isDigit = d :: t := takeWhile_eq_self_of_all hdig
  have hdrop : (d :: t).dropWhile Char.isDigit = [] := dropWhile_eq_nil_of_all hdig
  have hnonempty : (!(d :: t).isEmpty) = true := by simp
  have hplus : isCSpace '+' = false := by decide
  have hminus : isCSpace '-' = false := by decide
  have hlp : (['+'] : List Char) ≠ ['-'] := by decide
  have hlm : (['-'] : List Char) = ['-'] := rfl
  have hln : ([] : List Char) ≠ ['-'] := by decide
  rcases hsgn with rfl | rfl | rfl
  · have h1 : (w ++ [] ++ (d :: t)).dropWhile isCSpace = d :: t := by
      rw [List.append_nil, dropWhile_append_of_all hw]
      simp [List.dropWhile_cons, isCSpace_false_of_isDigit hd.1]
    simp only [strtoll10, h1]
    simp [hne, hne', htake, hdrop, strtollClamped, signedVal, hln]
  · have h1 : (w ++ ['+'] ++ (d :: t)).dropWhile isCSpace = '+' :: d :: t := by
      rw [List.append_assoc, dropWhile_append_of_all hw]
      simp [List.dropWhile_cons, hplus]
    simp only [strtoll10, h1]
    simp [htake, hdrop, strtollClamped, signedVal, hlp]
  · have h1 : (w ++ ['-'] ++ (d :: t)).dropWhile isCSpace = '-' :: d :: t := by
      rw [List.append_assoc, dropWhile_append_of_all hw]
      simp [List.dropWhile_cons, hminus]
    simp only [strtoll10, h1]
    simp [htake, hdrop, strtollClamped, signedVal, hlm]

theorem strtoll10_empty {s : List Char} (hsd : s.dropWhile isCSpace = []) :
    strtoll10 s = ⟨0, false, false, []⟩ := by
  simp only [strtoll10, hsd]
  decide

theorem strtoll10_decomp (s : List Char) (h : s.dropWhile isCSpace ≠ []) :
    ∃ sgn body, (sgn = [] ∨ sgn = ['+'] ∨ sgn = ['-']) ∧
      s = s.takeWhile isCSpace ++ (sgn ++ body) ∧
      strtoll10 s =
        (if signedVal sgn (body.takeWhile Char.isDigit) < int64Min then
          ⟨int64Min, true, !(body.takeWhile Char.isDigit).isEmpty, body.dropWhile Char.isDigit⟩
         else if int64Max < signedVal sgn (body.takeWhile Char.isDigit) then
          ⟨int64Max, true, !(body.takeWhile Char.isDigit).isEmpty, body.dropWhile Char.isDigit⟩
         else
          ⟨signedVal sgn (body.takeWhile Char.isDigit), false,
           !(body.takeWhile Char.isDigit).isEmpty, body.dropWhile Char.isDigit⟩) := by
  rcases hsd : s.dropWhile isCSpace with _ | ⟨c, t⟩
  · exact absurd hsd h
  have hsw : s.takeWhile isCSpace ++ (c :: t) = s := by
    rw [← hsd]; exact List.takeWhile_append_dropWhile isCSpace s
  by_cases hm : c = '-'
  · subst hm
    refine ⟨['-'], t, Or.inr (Or.inr rfl), by simpa using hsw.symm, ?_⟩
    simp only [strtoll10, hsd, signedVal]
    simp
  · by_cases hp : c = '+'
    · subst hp
      refine ⟨['+'], t, Or.inr (Or.inl rfl), by simpa using hsw.symm, ?_⟩
      simp only [strtoll10, hsd, signedVal]
      simp [hm]
    · refine ⟨[], c :: t, Or.inl rfl, by simpa using hsw.symm, ?_⟩
      simp only [strtoll10, hsd, signedVal]
      simp [hm, hp]

theorem try_int64_ok_iff (s : List Char) (v : Int) :
    try_int64_ s = .ok v ↔
      (s = [] ∧ v = 0) ∨ (strtollShape s v ∧ int64Min ≤ v ∧ v ≤ int64Max) := by
  constructor
  · intro h
    by_cases hsd0 : s.dropWhile isCSpace = []
    · have hst := strtoll10_empty hsd0
      simp only [try_int64_, hst] at h
      by_cases hs : s = []
      · subst hs
        simp at h
        exact Or.inl ⟨rfl, h.symm⟩
      · have hse : s.isEmpty = false := by simpa [List.isEmpty_iff] using hs
        simp [hse] at h
    · obtain ⟨sgn, body, hsgn, hseq, hst⟩ := strtoll10_decomp s hsd0
      by_cases hlt : signedVal sgn (body.takeWhile Char.isDigit) < int64Min
      · rw [if_pos hlt] at hst
        simp only [try_int64_, hst] at h
        simp at h
      by_cases hgt : int64Max < signedVal sgn (body.takeWhile Char.isDigit)
      · rw [if_neg hlt, if_pos hgt] at hst
        simp only [try_int64_, hst] at h
        simp at h
      rw [if_neg hlt, if_neg hgt] at hst
      simp only [try_int64_, hst] at h
      by_cases hdigs : body.takeWhile Char.isDigit = []
      · have hs_ne : s ≠ [] := fun hs => hsd0 (by simp [hs])
        have hse : s.isEmpty = false := by simpa [List.isEmpty_iff] using hs_ne
        simp [hdigs, hse] at h
      · have hgd : (!(body.takeWhile Char.isDigit).isEmpty) = true := by
          simpa [List.isEmpty_iff] using hdigs
        by_cases hrest : body.dropWhile Char.isDigit = []
        · simp [hgd, hrest] at h
          have hbody : body.takeWhile Char.isDigit = body := by
            have hb := List.takeWhile_append_dropWhile Char.isDigit body
            rw [hrest, List.append_nil] at hb
            exact hb
          refine Or.inr ⟨⟨s.takeWhile isCSpace, sgn, body, all_takeWhile_self s, hsgn,
            ?_, ?_, ?_, ?_⟩, ?_, ?_⟩
          · intro hb
            rw [hb] at hdigs
            exact hdigs rfl
          · rw [← hbody]
            exact all_takeWhile_self body
          · simpa using hseq
          · rw [← h, hbody]
          · rw [← h]
            exact not_lt.mp hlt
          · rw [← h]
            exact not_lt.mp hgt
        · have hre : (!(body.dropWhile Char.isDigit).isEmpty) = true := by
            simpa [List.isEmpty_iff] using hrest
          simp [hgd, hre] at h
  · rintro (⟨rfl, rfl⟩ | ⟨hsh, h1, h2⟩)
    · rfl
    · obtain ⟨w, sgn, ds, hw, hsgn, hds, hdig, rfl, rfl⟩ := hsh
      have hst := strtoll10_of_shape hw hsgn hds hdig
      simp only [try_int64_, hst, strtollClamped]
      rw [if_neg (not_lt.mpr h1), if_neg (not_lt.mpr h2)]
      simp

theorem try_int64_oor {s : List Char} {v : Int} (hsh : strtollShape s v)
    (hout : v < int64Min ∨ int64Max < v) :
    try_int64_ s = .error TypeErr.out_of_range := by
  obtain ⟨w, sgn, ds, hw, hsgn, hds, hdig, rfl, rfl⟩ := hsh
  have hst := strtoll10_of_shape hw hsgn hds hdig
  rcases hout with h1 | h1
  · rw [show strtollClamped (signedVal sgn ds) = ⟨int64Min, true, true, []⟩ from by
      simp [strtollClamped, if_pos h1]] at hst
    simp only [try_int64_]
    rw [hst]
    rfl
  · have hn : ¬ signedVal sgn ds < int64Min :=
      not_lt.mpr (le_trans (by decide) h1.le)
    rw [show strtollClamped (signedVal sgn ds) = ⟨int64Max, true, true, []⟩ from by
      simp [strtollClamped, if_neg hn, if_pos h1]] at hst
    simp only [try_int64_]
    rw [hst]
    rfl

theorem try_int64_oor_iff (s : List Char) :
    try_int64_ s = Except.error TypeErr.out_of_range ↔ (strtoll10 s).rangeErr = true := by
  simp only [try_int64_]
  split_ifs with h1 h2 <;> simp [h1]

theorem try_int64_generic_iff (s : List Char) :
    try_int64_ s = Except.error TypeErr.generic ↔
      (strtoll10 s).rangeErr = false ∧
        ((strtoll10 s).gotDigits = true ∧ (strtoll10 s).rest ≠ [] ∨
         (strtoll10 s).gotDigits = false ∧ s ≠ []) := by
  simp only [try_int64_]
  cases hre : (strtoll10 s).rangeErr with
  | true => simp [hre]
  | false =>
      cases hgd : (strtoll10 s).gotDigits with
      | true =>
          cases hrest : (strtoll10 s).rest with
          | nil => simp [hre, hgd, hrest]
          | cons c t => simp [hre, hgd, hrest]
      | false =>
          cases hs : s with
          | nil => simp [hre, hgd]
          | cons c t => simp [hre, hgd]

/-- **C7 (amended).** `try_bool_` succeeds exactly on the strings `true` and
`false` (reporting a boolean type error otherwise); `try_int64_` succeeds
exactly on the empty string (yielding 0, because `strtoll`'s end pointer
then coincides with the end of the string) and on strings of optional
leading C whitespace, an optional sign, and one or more decimal digits
reaching the end of the string, with the denoted value in the 64-bit range.
It reports out-of-range exactly when `strtoll` sets `ERANGE` — the parsed
numeric prefix overflows the 64-bit range — `errno` being checked before
the end pointer, so this includes strings with characters trailing the
digits; and a generic error exactly when no range error occurred but the
conversion did not consume the whole string (digits were consumed and
characters remain, or no digits were consumed and the string is
nonempty). -/
theorem c7_conversion_characterization (s : List Char) :
    (try_bool_ s = .ok true ↔ s = ['t', 'r', 'u', 'e']) ∧
    (try_bool_ s = .ok false ↔ s = ['f', 'a', 'l', 's', 'e']) ∧
    (try_bool_ s = .error TypeErr.boolean ↔
      s ≠ ['t', 'r', 'u', 'e'] ∧ s ≠ ['f', 'a', 'l', 's', 'e']) ∧
    (∀ v : Int, try_int64_ s = .ok v ↔
      (s = [] ∧ v = 0) ∨ (strtollShape s v ∧ int64Min ≤ v ∧ v ≤ int64Max)) ∧
    (∀ v : Int, strtollShape s v → v < int64Min ∨ int64Max < v →
      try_int64_ s = .error TypeErr.out_of_range) ∧
    (try_int64_ s = .error TypeErr.out_of_range ↔ (strtoll10 s).rangeErr = true) ∧
    (try_int64_ s = .error TypeErr.generic ↔
      (strtoll10 s).rangeErr = false ∧
        ((strtoll10 s).gotDigits = true ∧ (strtoll10 s).rest ≠ [] ∨
         (strtoll10 s).gotDigits = false ∧ s ≠ [])) := by
  refine ⟨?_, ?_, ?_, fun v => try_int64_ok_iff s v, fun v h1 h2 => try_int64_oor h1 h2,
    try_int64_oor_iff s, try_int64_generic_iff s⟩
  · unfold try_bool_
    split_ifs with h1 h2 <;> simp_all
  · unfold try_bool_
    split_ifs with h1 h2 <;> simp_all
  · unfold try_bool_
    split_ifs with h1 h2 <;> simp_all

/-- **C7 (counterexample).** `try_int64_` succeeds on the empty string
(yielding 0), although the empty string is not a base-10 integer, so
"`try_int64_` succeeds if and only if the entire string is a base-10 integer
representable in 64 bits" is false as stated. -/
theorem c7_counterexample :
    try_int64_ [] = .ok 0 ∧ ¬ specBase10Int64 [] := by
  refine ⟨rfl, ?_⟩
  rintro ⟨sgn, ds, hsgn, hds, hdig, heq, hrange⟩
  obtain ⟨-, h2⟩ := List.append_eq_nil.mp heq.symm
  exact hds h2

/-- Witness for `c7_conversion_characterization`: the out-of-range conjunct
applied to the string `9223372036854775808` (which is `2^63`). -/
theorem c7_conversion_characterization_witness :
    try_int64_ ['9', '2', '2', '3', '3', '7', '2', '0', '3', '6', '8', '5', '4', '7', '7',
      '5', '8', '0', '8'] = .error TypeErr.out_of_range :=
  (c7_conversion_characterization _).2.2.2.2.1 (2 ^ 63)
    ⟨[], [], ['9', '2', '2', '3', '3', '7', '2', '0', '3', '6', '8', '5', '4', '7', '7',
      '5', '8', '0', '8'], rfl, Or.inl rfl, by decide, by decide, rfl, by decide⟩
    (Or.inr (by decide))

/-! ## Helper lemmas for the ParameterMap constructor -/

theorem findIdxEq_append_cons {w : List Char} :
    ∀ (k : List Char) (i : Nat), '=' ∉ k →
      (k ++ '=' :: w).findIdx? (fun c => c == '=') i = some (i + k.length) := by
  intro k
  induction k with
  | nil => intro i _; simp [List.findIdx?_cons]
  | cons c t ih =>
      intro i hmem
      have hc : (c == '=') = false := by
        simp only [List.mem_cons] at hmem
        simp [beq_eq_false_iff_ne]
        intro h
        exact hmem (Or.inl h.symm)
      simp only [List.cons_append, List.findIdx?_cons, hc, if_false]
      rw [ih (i + 1) (fun h => hmem (List.mem_cons_of_mem c h))]
      simp
      omega

theorem findIdxEq_none :
    ∀ (s : List Char) (i : Nat), '=' ∉ s → s.findIdx? (fun c => c == '=') i = none := by
  intro s
  induction s with
  | nil => intro i _; rfl
  | cons c t ih =>
      intro i hmem
      have hc : (c == '=') = false := by
        simp only [List.mem_cons] at hmem
        simp [beq_eq_false_iff_ne]
        intro h
        exact hmem (Or.inl h.symm)
      simp only [List.findIdx?_cons, hc, if_false]
      exact ih (i + 1) (fun h => hmem (List.mem_cons_of_mem c h))

theorem tryExtract_no_eq {s : List Char} (h : '=' ∉ s) :
    Try_Extract_Key_Value_View s = ([], []) := by
  unfold Try_Extract_Key_Value_View
  rw [findIdxEq_none s 0 h]

theorem tryExtract_first_eq (s : List Char) :
    Try_Extract_Key_Value_View ('=' :: s) = ([], []) := by
  unfold Try_Extract_Key_Value_View
  simp [List.findIdx?_cons]

theorem tryExtract_last_eq {k : List Char} (hmem : '=' ∉ k) :
    Try_Extract_Key_Value_View (k ++ ['=']) = ([], []) := by
  unfold Try_Extract_Key_Value_View
  rw [show (k ++ ['=']) = k ++ '=' :: ([] : List Char) from rfl,
    findIdxEq_append_cons k 0 hmem]
  by_cases hk : k.length = 0
  · simp [hk]
  · simp [hk]

theorem tryExtract_split {k w : List Char} (hk : k ≠ []) (hmem : '=' ∉ k) (hw : w ≠ []) :
    Try_Extract_Key_Value_View (k ++ '=' :: w) = (k, w) := by
  unfold Try_Extract_Key_Value_View
  rw [findIdxEq_append_cons k 0 hmem]
  have hk0 : k.length ≠ 0 := by simpa [List.length_eq_zero] using hk
  have hlen : ¬ (0 + k.length + 1 = (k ++ '=' :: w).length) := by
    simp only [List.length_append, List.length_cons]
    have : w.length ≠ 0 := by simpa [List.length_eq_zero] using hw
    omega
  simp only [Nat.zero_add]
  rw [if_neg hk0, if_neg (by simpa using hlen)]
  refine Prod.ext ?_ ?_
  · exact List.take_left k ('=' :: w)
  · show List.drop (k.length + 1) (k ++ '=' :: w) = w
    rw [← List.drop_drop 1 k.length, List.drop_left k ('=' :: w)]
    rfl

theorem rstrip_append_newline (s : List Char) : rstrip (s ++ ['\n']) = rstrip s := by
  unfold rstrip
  simp [List.dropWhile_cons, show isCSpace '\n' = true from by decide]

theorem rstrip_concat_nonspace {s : List Char} {c : Char} (h : isCSpace c = false) :
    rstrip (s ++ [c]) = s ++ [c] := by
  unfold rstrip
  simp [List.dropWhile_cons, h]

theorem processFileBuffer_heading (st : PMState) (h : List Char) :
    processFileBuffer st (('[' :: h) ++ [']', '\n']) =
      (if h = [] then .error .emptyHeader
       else if h ∈ st.explicitTables then .error (.duplicateHeader h)
       else if h ∈ entryNamesOf st.entries then .error (.headerParamCollision h)
       else
         match (Process_Full_Name h st.allTables (entryNamesOf st.entries)).1 with
         | some e => .error (.headerNameErr h e)
         | none =>
             .ok { st with
                   explicitTables := h :: st.explicitTables
                   allTables :=
                     h :: (Process_Full_Name h st.allTables (entryNamesOf st.entries)).2
                   curTable := h }) := by
  have hview : rstrip (('[' :: h) ++ [']', '\n']) = ('[' :: h) ++ [']'] := by
    rw [show ([']', '\n'] : List Char) = [']'] ++ ['\n'] from rfl, ← List.append_assoc,
      rstrip_append_newline, rstrip_concat_nonspace (by decide)]
  have hlast : (('[' :: h) ++ [']']).getLast? = some ']' := List.getLast?_concat _
  have hdrop : ((('[' :: h) ++ [']']).drop 1).dropLast = h := by
    rw [show ('[' :: h) ++ [']'] = '[' :: (h ++ [']']) from by simp, List.drop_one,
      List.tail_cons, List.dropLast_concat]
  have hcond : ¬('[' = '\n' ∨ '[' = '#' ∨ '[' = ';') := by decide
  have hne : ¬((('[' :: h) ++ [']']).getLast? ≠ some ']') := by
    rw [hlast]
    exact fun hx => hx rfl
  show processFileBuffer st ('[' :: (h ++ [']', '\n'])) = _
  simp only [processFileBuffer]
  rw [if_neg hcond]
  simp only [if_true]
  rw [show '[' :: (h ++ [']', '\n']) = ('[' :: h) ++ [']', '\n'] from by simp, hview,
    if_neg hne, hdrop]

theorem Process_Full_Name_prefix_collision
    (full : List Char) (tables entries : List (List Char)) (pos : Nat)
    (hvalid : full.all validNameChar = true)
    (hfind : rfindDot full (full.length - 1) = some pos)
    (h1 : pos ≠ full.length - 1) (h2 : pos ≠ 0)
    (h3 : full.take pos ∉ tables) (h4 : full.take pos ∈ entries) :
    Process_Full_Name full tables entries =
      (some (.collidesWithParam (full.take pos)), full.take pos :: tables) := by
  have hany : full.any (fun c => !validNameChar c) = false := by
    rw [List.any_eq_false]
    intro c hc
    simp only [List.all_eq_true] at hvalid
    simp [hvalid c hc]
  unfold Process_Full_Name
  rw [hany]
  simp only [Bool.false_eq_true, if_false]
  show pfnLoop full entries (full.length + 1) (full.length - 1) tables = _
  rw [pfnLoop, hfind]
  simp [h1, h2, h3, h4]

/-- Whether a modelled construction succeeded. -/
def constructionOk (r : Except PMError PMState) : Bool :=
  match r with
  | .ok _ => true
  | .error _ => false

/-- The entries of a successful modelled construction. -/
def constructionEntries (r : Except PMError PMState) : List (List Char × List Char) :=
  match r with
  | .ok st => st.entries
  | .error _ => []

/-- **C6 (amended).** During `ParameterMap` construction, a `[table]`
heading that appears more than once and a heading that collides with the
name of an already-stored parameter each throw; a heading whose
`Process_Full_Name` check fails throws; and a parameter or heading name
whose (longest) dot-delimited table prefix collides with an existing
parameter name makes `Process_Full_Name` fail — provided that prefix has
not already been registered as a (sub)table, in which case the check is
short-circuited (see the counterexample). -/
theorem c6_heading_and_collision_errors :
    (∀ (st : PMState) (h : List Char), h ≠ [] →
      (h ∈ st.explicitTables →
        processFileBuffer st (('[' :: h) ++ [']', '\n']) = .error (.duplicateHeader h)) ∧
      (h ∉ st.explicitTables → h ∈ entryNamesOf st.entries →
        processFileBuffer st (('[' :: h) ++ [']', '\n']) =
          .error (.headerParamCollision h)) ∧
      (∀ e : PFNErr, h ∉ st.explicitTables → h ∉ entryNamesOf st.entries →
        (Process_Full_Name h st.allTables (entryNamesOf st.entries)).1 = some e →
        processFileBuffer st (('[' :: h) ++ [']', '\n']) = .error (.headerNameErr h e))) ∧
    (∀ (full : List Char) (tables entries : List (List Char)) (pos : Nat),
      full.all validNameChar = true →
      rfindDot full (full.length - 1) = some pos →
      pos ≠ full.length - 1 → pos ≠ 0 →
      full.take pos ∉ tables → full.take pos ∈ entries →
      (Process_Full_Name full tables entries).1 =
        some (.collidesWithParam (full.take pos))) := by
  constructor
  · intro st h hne
    refine ⟨?_, ?_, ?_⟩
    · intro hdup
      rw [processFileBuffer_heading, if_neg hne, if_pos hdup]
    · intro hnd hcol
      rw [processFileBuffer_heading, if_neg hne, if_neg hnd, if_pos hcol]
    · intro e hnd hnc hpfn
      rw [processFileBuffer_heading, if_neg hne, if_neg hnd, if_neg hnc, hpfn]
  · intro full tables entries pos hvalid hfind h1 h2 h3 h4
    rw [Process_Full_Name_prefix_collision full tables entries pos hvalid hfind h1 h2 h3 h4]

/-- **C6 (counterexample).** The prefix-collision check is short-circuited
when the prefix is already a registered table: after the heading `[a.x]`
registers `a` as a table, the command line can store a parameter named `a`
and then a parameter named `a.y`; construction succeeds and `a.y` is stored
even though its table prefix `a` collides with the existing parameter `a`,
contradicting the claim that such a collision always fails. -/
theorem c6_counterexample :
    constructionOk (ParameterMap_construct [['[', 'a', '.', 'x', ']']]
      [['a', '=', '1'], ['a', '.', 'y', '=', '2']]) = true ∧
    (['a', '.', 'y'], ['2']) ∈ constructionEntries (ParameterMap_construct
      [['[', 'a', '.', 'x', ']']] [['a', '=', '1'], ['a', '.', 'y', '=', '2']]) ∧
    ['a'] ∈ entryNamesOf (constructionEntries (ParameterMap_construct
      [['[', 'a', '.', 'x', ']']] [['a', '=', '1'], ['a', '.', 'y', '=', '2']])) := by
  decide

/-- Witness for `c6_heading_and_collision_errors` at concrete states. -/
theorem c6_heading_and_collision_errors_witness :
    processFileBuffer ⟨[['t']], [['t']], ['t'], []⟩ (('[' :: ['t']) ++ [']', '\n']) =
      .error (.duplicateHeader ['t']) ∧
    processFileBuffer ⟨[], [], [], [(['p'], ['1'])]⟩ (('[' :: ['p']) ++ [']', '\n']) =
      .error (.headerParamCollision ['p']) ∧
    processFileBuffer ⟨[], [], [], []⟩ (('[' :: ['q', '.']) ++ [']', '\n']) =
      .error (.headerNameErr ['q', '.'] .endsWithDot) ∧
    (Process_Full_Name ['a', '.', 'b'] [] [['a']]).1 =
      some (.collidesWithParam (['a', '.', 'b'].take 1)) := by
  refine ⟨?_, ?_, ?_, ?_⟩
  · exact ((c6_heading_and_collision_errors.1 ⟨[['t']], [['t']], ['t'], []⟩ ['t']
      (by decide)).1 (by decide))
  · exact ((c6_heading_and_collision_errors.1 ⟨[], [], [], [(['p'], ['1'])]⟩ ['p']
      (by decide)).2.1 (by decide) (by decide))
  · exact ((c6_heading_and_collision_errors.1 ⟨[], [], [], []⟩ ['q', '.']
      (by decide)).2.2 .endsWithDot (by decide) (by decide) (by decide))
  · exact (c6_heading_and_collision_errors.2 ['a', '.', 'b'] [] [['a']] 1
      (by decide) (by decide) (by decide) (by decide) (by decide) (by decide))

/-- **C9 (amended).** A command-line token whose first `'='` is absent, at
position 0, or the final character extracts an empty key and is silently
skipped (no entry, no error, state unchanged).  A parameter-file line that
is not blank and does not start with `'#'`, `';'` or `'['` is silently
skipped exactly as claimed when `'='` is absent from the line or is its
first character; but the `'='`-last test applies to the raw `fgets` buffer,
which carries the line's trailing newline, so a mid-file line whose text
ends in `'='` is NOT skipped — it is stored with an empty value (see the
counterexample).  Lines starting with `'['` are headings and may throw. -/
theorem c9_skip_behavior :
    (∀ (st : PMState) (tok : List Char),
      (tok.findIdx? (fun c => c == '=') = none ∨
       tok.findIdx? (fun c => c == '=') = some 0 ∨
       tok.findIdx? (fun c => c == '=') = some (tok.length - 1)) →
      processCliToken st tok = .ok st) ∧
    (∀ (st : PMState) (line : List Char),
      (∀ c, line.head? = some c → c ≠ '\n' ∧ c ≠ '#' ∧ c ≠ ';' ∧ c ≠ '[') →
      ('=' ∉ line ∨ line.head? = some '=') →
      processFileBuffer st (line ++ ['\n']) = .ok st) := by
  constructor
  · intro st tok h
    have hskip : Try_Extract_Key_Value_View tok = ([], []) := by
      rcases h with h | h | h
      · unfold Try_Extract_Key_Value_View
        rw [h]
      · unfold Try_Extract_Key_Value_View
        rw [h]
        simp
      · have htne : tok ≠ [] := by
          intro he
          rw [he] at h
          exact absurd h (by decide)
        have hlen : 1 ≤ tok.length := by
          cases tok with
          | nil => exact absurd rfl htne
          | cons a t => simp
        unfold Try_Extract_Key_Value_View
        rw [h]
        by_cases hp : tok.length - 1 = 0
        · simp [hp]
        · simp [hp, Nat.sub_add_cancel hlen]
    unfold processCliToken
    rw [hskip]
    simp
  · intro st line hhead hcond
    cases line with
    | nil => rfl
    | cons c t =>
        obtain ⟨hc1, hc2, hc3, hc4⟩ := hhead c rfl
        have hskip : Try_Extract_Key_Value_View ((c :: t) ++ ['\n']) = ([], []) := by
          rcases hcond with hmem | hfirst
          · refine tryExtract_no_eq ?_
            intro hin
            rcases List.mem_append.mp hin with hin | hin
            · exact hmem hin
            · simp at hin
          · have : c = '=' := by simpa using hfirst
            subst this
            exact tryExtract_first_eq (t ++ ['\n'])
        have hskip2 : Try_Extract_Key_Value_View (c :: (t ++ ['\n'])) = ([], []) := hskip
        show processFileBuffer st (c :: (t ++ ['\n'])) = .ok st
        simp only [processFileBuffer]
        rw [if_neg (by simp [hc1, hc2, hc3]), if_neg hc4, hskip2]
        simp

/-- **C9 (counterexample).** The parameter-file line `key=` has `'='` as its
last character, yet it is not skipped: the `fgets` buffer is `key=\n`, the
first `'='` is not the buffer's last character, and the parameter `key` is
stored with an empty (trimmed) value — the map's contents change. -/
theorem c9_counterexample :
    ['k', 'e', 'y', '='].getLast? = some '=' ∧
    constructionOk (processFileBuffer initPMState (['k', 'e', 'y', '='] ++ ['\n'])) = true ∧
    constructionEntries (processFileBuffer initPMState (['k', 'e', 'y', '='] ++ ['\n'])) =
      [(['k', 'e', 'y'], [])] := by
  decide

/-- Witness for `c9_skip_behavior` at concrete inputs. -/
theorem c9_skip_behavior_witness :
    processCliToken initPMState ['a', 'b'] = .ok initPMState ∧
    processCliToken initPMState ['=', 'x'] = .ok initPMState ∧
    processCliToken initPMState ['a', '='] = .ok initPMState ∧
    processFileBuffer initPMState (['x', 'y'] ++ ['\n']) = .ok initPMState := by
  refine ⟨?_, ?_, ?_, ?_⟩
  · exact c9_skip_behavior.1 initPMState ['a', 'b'] (Or.inl (by decide))
  · exact c9_skip_behavior.1 initPMState ['=', 'x'] (Or.inr (Or.inl (by decide)))
  · exact c9_skip_behavior.1 initPMState ['a', '='] (Or.inr (Or.inr (by decide)))
  · exact c9_skip_behavior.2 initPMState ['x', 'y'] (by decide) (Or.inl (by decide))

/-- The stored parameters that were never accessed and are not ignored. -/
def unusedEntries (entries : List (List Char × PMEntry)) (ignore : List (List Char)) :
    List (List Char × PMEntry) :=
  entries.filter (fun e => decide (e.2.accessed = false ∧ e.1 ∉ ignore))

theorem warn_unused_ok (entries : List (List Char × PMEntry)) (ignore : List (List Char))
    (suppress : Bool) :
    warn_unused_parameters entries ignore false suppress =
      .ok ((unusedEntries entries ignore).length,
        if suppress then []
        else (unusedEntries entries ignore).map (fun e => (e.1, e.2.paramStr))) := by
  induction entries with
  | nil => cases suppress <;> simp [warn_unused_parameters, unusedEntries]
  | cons e t ih =>
      obtain ⟨name, pe⟩ := e
      by_cases h : pe.accessed = false ∧ name ∉ ignore
      · simp only [warn_unused_parameters, if_pos h, ih]
        cases suppress <;> simp [unusedEntries, List.filter_cons, h]
      · simp only [warn_unused_parameters, if_neg h, ih]
        cases suppress <;> simp [unusedEntries, List.filter_cons, h]

/-- **C8.** `warn_unused_parameters` returns exactly the number of stored
parameters that were never accessed and are not in the ignore set, together
with one warning naming each such parameter and its value (none when the
message is suppressed); with `abort_on_warning` set it aborts with an error
naming the first such parameter, returning `0` with no warnings only when
there is none; and every emitted warning names an unaccessed, un-ignored
parameter (so nothing is reported for accessed parameters). -/
theorem c8_warn_unused_parameters (entries : List (List Char × PMEntry))
    (ignore : List (List Char)) (suppress : Bool) :
    (warn_unused_parameters entries ignore false suppress =
      .ok ((unusedEntries entries ignore).length,
        if suppress then []
        else (unusedEntries entries ignore).map (fun e => (e.1, e.2.paramStr)))) ∧
    (unusedEntries entries ignore = [] →
      warn_unused_parameters entries ignore true suppress = .ok (0, [])) ∧
    (∀ u us, unusedEntries entries ignore = u :: us →
      warn_unused_parameters entries ignore true suppress = .error (u.1, u.2.paramStr)) ∧
    (∀ w ∈ (unusedEntries entries ignore).map (fun e => (e.1, e.2.paramStr)),
      ∃ e ∈ entries, e.2.accessed = false ∧ e.1 ∉ ignore ∧ w = (e.1, e.2.paramStr)) := by
  refine ⟨warn_unused_ok entries ignore suppress, ?_, ?_, ?_⟩
  · induction entries with
    | nil => intro _; rfl
    | cons e t ih =>
        obtain ⟨name, pe⟩ := e
        by_cases h : pe.accessed = false ∧ name ∉ ignore
        · intro habs
          simp [unusedEntries, List.filter_cons, h] at habs
        · intro hu
          have hcons : unusedEntries ((name, pe) :: t) ignore = unusedEntries t ignore := by
            simp [unusedEntries, List.filter_cons, h]
          rw [hcons] at hu
          simp only [warn_unused_parameters, if_neg h]
          exact ih hu
  · induction entries with
    | nil =>
        intro u us hu
        simp [unusedEntries] at hu
    | cons e t ih =>
        obtain ⟨name, pe⟩ := e
        intro u us hu
        by_cases h : pe.accessed = false ∧ name ∉ ignore
        · have hcons : unusedEntries ((name, pe) :: t) ignore =
              (name, pe) :: unusedEntries t ignore := by
            simp [unusedEntries, List.filter_cons, h]
          rw [hcons] at hu
          injection hu with h1 h2
          simp only [warn_unused_parameters, if_pos h]
          rw [← h1]
          simp
        · have hcons : unusedEntries ((name, pe) :: t) ignore = unusedEntries t ignore := by
            simp [unusedEntries, List.filter_cons, h]
          rw [hcons] at hu
          simp only [warn_unused_parameters, if_neg h]
          exact ih u us hu
  · intro w hw
    simp only [List.mem_map] at hw
    obtain ⟨e, he, rfl⟩ := hw
    simp only [unusedEntries, List.mem_filter, decide_eq_true_eq] at he
    exact ⟨e, he.1, he.2.1, he.2.2, rfl⟩

/-- Witness for `c8_warn_unused_parameters` at a concrete map with one
unused and one accessed parameter. -/
theorem c8_warn_unused_parameters_witness :
    warn_unused_parameters [(['a'], ⟨['1'], false⟩), (['b'], ⟨['2'], true⟩)] [] false false =
      .ok (1, [(['a'], ['1'])]) ∧
    warn_unused_parameters [(['a'], ⟨['1'], false⟩), (['b'], ⟨['2'], true⟩)] [] true false =
      .error (['a'], ['1']) :=
  ⟨(c8_warn_unused_parameters [(['a'], ⟨['1'], false⟩), (['b'], ⟨['2'], true⟩)] [] false).1,
   (c8_warn_unused_parameters [(['a'], ⟨['1'], false⟩), (['b'], ⟨['2'], true⟩)] [] false).2.2.1
     (['a'], ⟨['1'], false⟩) [] (by decide)⟩

/-! ## Claim C10: the round-off comparison -/

/-- **C10.** `nearlyEqualDbl` with its default tolerances returns true if
and only if the ULP distance is at most 4 or `|a - b| ≤ 1e-14` (the NaN- and
infinity-aware absolute comparison); the ULP distance is symmetric, is `0`
whenever the arguments compare IEEE-equal (including `+0` and `-0`, and any
pattern equal to itself such as an infinity), and — taking the guards in the
source's order — is the maximum `int64` value when an argument is NaN, when
the arguments are not equal and one is infinite, and when additionally the
reinterpreted `int64` signs differ. -/
theorem c10_nearlyEqualDbl_characterization (a b : Nat) :
    (nearlyEqualDbl a b = true ↔
      ulpsDistanceDbl a b ≤ 4 ∨ dblAbsDiffLe a b (1 / 10 ^ 14)) ∧
    (ulpsDistanceDbl a b = ulpsDistanceDbl b a) ∧
    (ieeeEq a b → ulpsDistanceDbl a b = 0) ∧
    (dblIsNan a ∨ dblIsNan b → ulpsDistanceDbl a b = int64Max) ∧
    (¬ieeeEq a b → dblIsInf a ∨ dblIsInf b → ulpsDistanceDbl a b = int64Max) ∧
    (¬ieeeEq a b → ¬(dblIsNan a ∨ dblIsNan b) → ¬(dblIsInf a ∨ dblIsInf b) →
      ¬(int64OfBits a < 0 ↔ int64OfBits b < 0) → ulpsDistanceDbl a b = int64Max) := by
  have hnan_not_eq : dblIsNan a ∨ dblIsNan b → ¬ieeeEq a b := by
    rintro (hn | hn) ⟨h1, h2, -⟩
    · exact h1 hn
    · exact h2 hn
  have hsym : ieeeEq a b ↔ ieeeEq b a := by
    unfold ieeeEq
    constructor
    · rintro ⟨h1, h2, h3 | ⟨z1, z2⟩⟩
      · exact ⟨h2, h1, Or.inl h3.symm⟩
      · exact ⟨h2, h1, Or.inr ⟨z2, z1⟩⟩
    · rintro ⟨h1, h2, h3 | ⟨z1, z2⟩⟩
      · exact ⟨h2, h1, Or.inl h3.symm⟩
      · exact ⟨h2, h1, Or.inr ⟨z2, z1⟩⟩
  refine ⟨?_, ?_, ?_, ?_, ?_, ?_⟩
  · unfold nearlyEqualDbl
    split_ifs with h1 h2
    · exact iff_of_true rfl (Or.inl h1)
    · exact iff_of_true rfl (Or.inr h2)
    · refine iff_of_false (by simp) ?_
      rintro (h | h)
      · exact h1 h
      · exact h2 h
  · unfold ulpsDistanceDbl
    by_cases he : ieeeEq a b
    · rw [if_pos he, if_pos (hsym.mp he)]
    · rw [if_neg he, if_neg (fun hx => he (hsym.mpr hx))]
      by_cases hnan : dblIsNan a ∨ dblIsNan b
      · rw [if_pos hnan, if_pos (hnan.symm : dblIsNan b ∨ dblIsNan a)]
      · rw [if_neg hnan, if_neg (fun hx : dblIsNan b ∨ dblIsNan a => hnan hx.symm)]
        by_cases hinf : dblIsInf a ∨ dblIsInf b
        · rw [if_pos hinf, if_pos (hinf.symm : dblIsInf b ∨ dblIsInf a)]
        · rw [if_neg hinf, if_neg (fun hx : dblIsInf b ∨ dblIsInf a => hinf hx.symm)]
          by_cases hsign : ¬(int64OfBits a < 0 ↔ int64OfBits b < 0)
          · rw [if_pos hsign,
              if_pos (fun hx : int64OfBits b < 0 ↔ int64OfBits a < 0 => hsign hx.symm)]
          · rw [if_neg hsign,
              if_neg (fun hx : ¬(int64OfBits b < 0 ↔ int64OfBits a < 0) =>
                hsign (fun hy => hx hy.symm))]
            exact abs_sub_comm _ _
  · intro he
    unfold ulpsDistanceDbl
    rw [if_pos he]
  · intro hn
    unfold ulpsDistanceDbl
    rw [if_neg (hnan_not_eq hn), if_pos hn]
  · intro he hi
    unfold ulpsDistanceDbl
    rw [if_neg he]
    by_cases hn : dblIsNan a ∨ dblIsNan b
    · rw [if_pos hn]
    · rw [if_neg hn, if_pos hi]
  · intro he hn hi hs
    unfold ulpsDistanceDbl
    rw [if_neg he, if_neg hn, if_neg hi, if_pos hs]

/-- Witness for `c10_nearlyEqualDbl_characterization`: a NaN pattern gives
the maximum distance, an infinity equals itself at distance 0, `+0` and `-0`
are at distance 0, and opposite-sign patterns give the maximum distance. -/
theorem c10_nearlyEqualDbl_characterization_witness :
    ulpsDistanceDbl (2047 * 2 ^ 52 + 1) 0 = int64Max ∧
    ulpsDistanceDbl (2047 * 2 ^ 52) (2047 * 2 ^ 52) = 0 ∧
    ulpsDistanceDbl 0 (2 ^ 63) = 0 ∧
    ulpsDistanceDbl 1 (2 ^ 63 + 1) = int64Max := by
  refine ⟨?_, ?_, ?_, ?_⟩
  · exact (c10_nearlyEqualDbl_characterization (2047 * 2 ^ 52 + 1) 0).2.2.2.1
      (Or.inl (by decide))
  · exact (c10_nearlyEqualDbl_characterization (2047 * 2 ^ 52) (2047 * 2 ^ 52)).2.2.1
      ⟨by decide, by decide, Or.inl rfl⟩
  · exact (c10_nearlyEqualDbl_characterization 0 (2 ^ 63)).2.2.1
      ⟨by decide, by decide, Or.inr (by decide)⟩
  · exact (c10_nearlyEqualDbl_characterization 1 (2 ^ 63 + 1)).2.2.2.2.2
      (by decide) (by decide) (by decide) (by decide)

/-! ## Claim C5: the initial pressure guess -/

/-- **C5 (amended).** The guess returned by `guessp` is always nonnegative
(the two-shock estimate built on the clamped PVRS value is returned as-is
when it is nonnegative, and replaced by `1e-6` when negative); it is not
always strictly positive, because the two-shock estimate can be exactly
zero. -/
theorem c5_guessp_nonneg (dl vxl pl cl dr vxr pr cr gamma : ℝ) :
    0 ≤ guessp dl vxl pl cl dr vxr pr cr gamma := by
  simp only [guessp]
  split_ifs with h
  · norm_num
  · exact not_lt.mp h

/-- **C5 (counterexample).** With left/right states `d = 1`, `p = 1`,
`γ = 3` (so `c = √3`), `vxl = 0`, `vxr = 2`, the PVRS estimate `1 - √3` is
negative and clamped to zero, both two-shock weights equal 1, and the
two-shock estimate is `(1 + 1 - 2)/2 = 0`, which the `< 0` clamp does not
touch: `guessp` returns exactly 0, so the guess is not always positive. -/
theorem c5_counterexample :
    guessp 1 0 1 (Real.sqrt 3) 1 2 1 (Real.sqrt 3) 3 = 0 := by
  have h3 : 1 < Real.sqrt 3 := by
    rw [show (1 : ℝ) = Real.sqrt 1 from Real.sqrt_one.symm]
    exact Real.sqrt_lt_sqrt (by norm_num) (by norm_num)
  have hppv : ppvRaw 1 0 1 (Real.sqrt 3) 1 2 1 (Real.sqrt 3) < 0 := by
    unfold ppvRaw
    nlinarith [h3]
  have hclamp : ppvClamped 1 0 1 (Real.sqrt 3) 1 2 1 (Real.sqrt 3) = 0 := by
    unfold ppvClamped
    rw [if_pos hppv]
  simp only [guessp, hclamp]
  have harg : ((2 : ℝ) / ((3 + 1) * 1)) / (((3 - 1) / (3 + 1)) * 1 + 0) = 1 := by norm_num
  rw [harg, Real.sqrt_one]
  norm_num

/-! ## Claim C4: upwinding of the tangential and dual-energy fluxes -/

theorem assembleExact_upwind (ds us ps vyl vyr vzl vzr gel ger pm um gamma : ℝ) :
    (assembleExact ds us ps vyl vyr vzl vzr gel ger pm um gamma).f5 =
      (assembleExact ds us ps vyl vyr vzl vzr gel ger pm um gamma).f0 *
        (if 0 ≤ (assembleExact ds us ps vyl vyr vzl vzr gel ger pm um gamma).sampledU
         then gel else ger) ∧
    (assembleExact ds us ps vyl vyr vzl vzr gel ger pm um gamma).f2 =
      (assembleExact ds us ps vyl vyr vzl vzr gel ger pm um gamma).f0 *
        (if 0 ≤ (assembleExact ds us ps vyl vyr vzl vzr gel ger pm um gamma).sampledU
         then vyl else vyr) ∧
    (assembleExact ds us ps vyl vyr vzl vzr gel ger pm um gamma).f3 =
      (assembleExact ds us ps vyl vyr vzl vzr gel ger pm um gamma).f0 *
        (if 0 ≤ (assembleExact ds us ps vyl vyr vzl vzr gel ger pm um gamma).sampledU
         then vzl else vzr) := by
  unfold assembleExact
  split_ifs with h <;> exact ⟨rfl, rfl, rfl⟩

/-- **C4.** In the exact solver (with the dual-energy field), the
dual-energy flux and the tangential momentum fluxes are upwinded on the sign
of the sampled interface velocity `us` (which is the contact-wave speed
whenever the interface lies in the star region): each equals the density
flux `F_ρ = fluxes[0]` times the left cell's specific value (`ge_L`, `vy_L`,
`vz_L`) when `us ≥ 0`, and times the right cell's specific value
otherwise. -/
theorem c4_upwinded_fluxes (cW : Fin 12 → ℝ) (gamma : ℝ) :
    (Calculate_Exact_Fluxes cW gamma).f5 =
      (Calculate_Exact_Fluxes cW gamma).f0 *
        (if 0 ≤ (Calculate_Exact_Fluxes cW gamma).sampledU
         then cW 10 / cW 0 else cW 11 / cW 1) ∧
    (Calculate_Exact_Fluxes cW gamma).f2 =
      (Calculate_Exact_Fluxes cW gamma).f0 *
        (if 0 ≤ (Calculate_Exact_Fluxes cW gamma).sampledU
         then cW 4 / cW 0 else cW 5 / cW 1) ∧
    (Calculate_Exact_Fluxes cW gamma).f3 =
      (Calculate_Exact_Fluxes cW gamma).f0 *
        (if 0 ≤ (Calculate_Exact_Fluxes cW gamma).sampledU
         then cW 6 / cW 0 else cW 7 / cW 1) := by
  simp only [Calculate_Exact_Fluxes]
  exact assembleExact_upwind _ _ _ _ _ _ _ _ _ _ _ _

/-! ## Claim C2: identical left and right states -/

theorem prefun_at_pk (d p c gamma : ℝ) (hp : p ≠ 0) :
    prefun p d p c gamma = (0, 1 / (d * c)) := by
  unfold prefun
  rw [if_pos le_rfl, div_self hp, Real.one_rpow, Real.one_rpow]
  norm_num

theorem starpuGo_first_step (dl vxl pl cl dr vxr pr cr gamma : ℝ) (fuel : ℕ) (pold : ℝ)
    (h : 2 * |((starpuStep dl vxl pl cl dr vxr pr cr gamma pold).1 - pold) /
      ((starpuStep dl vxl pl cl dr vxr pr cr gamma pold).1 + pold)| ≤ 1e-6) :
    starpuGo dl vxl pl cl dr vxr pr cr gamma (fuel + 1) pold =
      ((starpuStep dl vxl pl cl dr vxr pr cr gamma pold).1,
       (starpuStep dl vxl pl cl dr vxr pr cr gamma pold).2.1,
       (starpuStep dl vxl pl cl dr vxr pr cr gamma pold).2.2, 1) := by
  cases fuel with
  | zero =>
      show starpuGo dl vxl pl cl dr vxr pr cr gamma 1 pold = _
      rw [starpuGo]
      simp only [if_pos h]
  | succ m =>
      show starpuGo dl vxl pl cl dr vxr pr cr gamma (m + 2) pold = _
      rw [starpuGo]
      simp only [if_pos h]

theorem guessp_symm (d u p c gamma : ℝ) (hd : 0 < d) (hg : 1 < gamma) (hp : 0 < p) :
    guessp d u p c d u p c gamma = p := by
  have hraw : ppvRaw d u p c d u p c = p := by
    unfold ppvRaw
    ring
  have hcl : ppvClamped d u p c d u p c = p := by
    unfold ppvClamped
    rw [hraw, if_neg (not_lt.mpr hp.le)]
  simp only [guessp, hcl]
  set g := Real.sqrt (2 / ((gamma + 1) * d) / ((gamma - 1) / (gamma + 1) * p + p)) with hgdef
  have hgpos : 0 < g := by
    rw [hgdef]
    apply Real.sqrt_pos.mpr
    apply div_pos
    · exact div_pos (by norm_num) (mul_pos (by linarith) hd)
    · have h1 : 0 < (gamma - 1) / (gamma + 1) := div_pos (by linarith) (by linarith)
      nlinarith
  have hp0 : (g * p + g * p - (u - u)) / (g + g) = p := by
    rw [div_eq_iff (ne_of_gt (by linarith : (0 : ℝ) < g + g))]
    ring
  rw [hp0, if_neg (not_lt.mpr hp.le)]

theorem starpuStep_symm (d u p c gamma : ℝ) (hp : 0 < p) :
    starpuStep d u p c d u p c gamma p = (p, 0, 0) := by
  unfold starpuStep
  rw [prefun_at_pk d p c gamma hp.ne']
  simp

theorem starpu_symm (d u p c gamma : ℝ) (hd : 0 < d) (hg : 1 < gamma) (hp : 0 < p) :
    starpu d u p c d u p c gamma = (p, u) := by
  have hstep := starpuStep_symm d u p c gamma hp
  have hconv : 2 * |((starpuStep d u p c d u p c gamma p).1 - p) /
      ((starpuStep d u p c d u p c gamma p).1 + p)| ≤ 1e-6 := by
    rw [hstep]
    simp
    norm_num
  unfold starpu
  rw [guessp_symm d u p c gamma hd hg hp, show (21 : ℕ) = 20 + 1 from rfl,
    starpuGo_first_step d u p c d u p c gamma 20 p hconv, hstep]
  refine Prod.ext rfl ?_
  show 0.5 * (u + u + 0 - 0) = u
  ring

theorem sample_symm (d u p c gamma : ℝ) (hp : 0 < p) :
    sample p u d u p c d u p c gamma = (d, u, p) := by
  have hpp : p / p = 1 := div_self hp.ne'
  simp only [sample]
  by_cases hu : 0 ≤ u
  · rw [if_pos hu, if_pos le_rfl]
    by_cases hcl : 0 ≤ u - c
    · rw [if_pos hcl]
    · rw [if_neg hcl]
      simp [hpp, Real.one_rpow, not_le.mp hcl]
  · rw [if_neg hu, if_neg (lt_irrefl p)]
    by_cases hcr : u + c ≤ 0
    · rw [if_pos hcr]
    · rw [if_neg hcr]
      simp [hpp, Real.one_rpow, le_of_lt (not_le.mp hcr)]

/-- The conserved-variable array for identical left and right states with
primitives `(d, u, vy, vz, p)` and specific dual energy `ge`, the total
energy being `p/(γ-1) + ½ d |v|²`. -/
noncomputable def conservedSymmetric (d u vy vz p ge gamma : ℝ) : Fin 12 → ℝ :=
  ![d, d, d * u, d * u, d * vy, d * vy, d * vz, d * vz,
    p / (gamma - 1) + 0.5 * d * (u * u + vy * vy + vz * vz),
    p / (gamma - 1) + 0.5 * d * (u * u + vy * vy + vz * vz), d * ge, d * ge]

/-- **C2.** For identical left and right states with positive density and
pressure at or above the floor, the exact solver's star region reproduces
`p* = p` and `u* = u`, and the assembled flux is the analytic flux
`(ρu, ρu² + p, ρu·vy, ρu·vz, (E + p)u)` with dual-energy flux `ρu·ge` —
zero dissipation. -/
theorem c2_identical_states (d u vy vz p ge gamma : ℝ)
    (hd : 0 < d) (hg : 1 < gamma) (hp : TINY_NUMBER ≤ p) :
    (Calculate_Exact_Fluxes (conservedSymmetric d u vy vz p ge gamma) gamma).f0 = d * u ∧
    (Calculate_Exact_Fluxes (conservedSymmetric d u vy vz p ge gamma) gamma).f1 =
      d * u * u + p ∧
    (Calculate_Exact_Fluxes (conservedSymmetric d u vy vz p ge gamma) gamma).f2 =
      d * u * vy ∧
    (Calculate_Exact_Fluxes (conservedSymmetric d u vy vz p ge gamma) gamma).f3 =
      d * u * vz ∧
    (Calculate_Exact_Fluxes (conservedSymmetric d u vy vz p ge gamma) gamma).f4 =
      (p / (gamma - 1) + 0.5 * d * (u * u + vy * vy + vz * vz) + p) * u ∧
    (Calculate_Exact_Fluxes (conservedSymmetric d u vy vz p ge gamma) gamma).f5 =
      d * u * ge ∧
    (Calculate_Exact_Fluxes (conservedSymmetric d u vy vz p ge gamma) gamma).starPm = p ∧
    (Calculate_Exact_Fluxes (conservedSymmetric d u vy vz p ge gamma) gamma).starUm = u := by
  have hp0 : (0 : ℝ) < p := lt_of_lt_of_le (by norm_num [TINY_NUMBER]) hp
  have hdne : d ≠ 0 := hd.ne'
  have h0 : conservedSymmetric d u vy vz p ge gamma 0 = d := rfl
  have h1 : conservedSymmetric d u vy vz p ge gamma 1 = d := rfl
  have h2 : conservedSymmetric d u vy vz p ge gamma 2 = d * u := rfl
  have h3 : conservedSymmetric d u vy vz p ge gamma 3 = d * u := rfl
  have h4 : conservedSymmetric d u vy vz p ge gamma 4 = d * vy := rfl
  have h5 : conservedSymmetric d u vy vz p ge gamma 5 = d * vy := rfl
  have h6 : conservedSymmetric d u vy vz p ge gamma 6 = d * vz := rfl
  have h7 : conservedSymmetric d u vy vz p ge gamma 7 = d * vz := rfl
  have h8 : conservedSymmetric d u vy vz p ge gamma 8 =
      p / (gamma - 1) + 0.5 * d * (u * u + vy * vy + vz * vz) := rfl
  have h9 : conservedSymmetric d u vy vz p ge gamma 9 =
      p / (gamma - 1) + 0.5 * d * (u * u + vy * vy + vz * vz) := rfl
  have h10 : conservedSymmetric d u vy vz p ge gamma 10 = d * ge := rfl
  have h11 : conservedSymmetric d u vy vz p ge gamma 11 = d * ge := rfl
  have hvu : d * u / d = u := by field_simp
  have hvy : d * vy / d = vy := by field_simp
  have hvz : d * vz / d = vz := by field_simp
  have hge : d * ge / d = ge := by field_simp
  have hplmax : max ((p / (gamma - 1) + 0.5 * d * (u * u + vy * vy + vz * vz) -
      0.5 * d * (u * u + vy * vy + vz * vz)) * (gamma - 1)) TINY_NUMBER = p := by
    have hx : (p / (gamma - 1) + 0.5 * d * (u * u + vy * vy + vz * vz) -
        0.5 * d * (u * u + vy * vy + vz * vz)) * (gamma - 1) = p := by
      have hgne : gamma - 1 ≠ 0 := ne_of_gt (by linarith)
      rw [add_sub_cancel_right, div_mul_cancel₀ p hgne]
    rw [hx]
    exact max_eq_left hp
  have hc : Calculate_Exact_Fluxes (conservedSymmetric d u vy vz p ge gamma) gamma =
      assembleExact d u p vy vy vz vz ge ge p u gamma := by
    simp only [Calculate_Exact_Fluxes, h0, h1, h2, h3, h4, h5, h6, h7, h8, h9, h10, h11,
      hvu, hvy, hvz, hge, hplmax]
    rw [starpu_symm d u p (Real.sqrt (gamma * p / d)) gamma hd hg hp0]
    dsimp only
    rw [sample_symm d u p (Real.sqrt (gamma * p / d)) gamma hp0]
  rw [hc]
  unfold assembleExact
  split_ifs with h
  · exact ⟨rfl, rfl, rfl, rfl, rfl, rfl, rfl, rfl⟩
  · exact ⟨rfl, rfl, rfl, rfl, rfl, rfl, rfl, rfl⟩

/-- Witness for `c2_identical_states` at `d = 1`, `u = 1`, `vy = 2`,
`vz = 3`, `p = 1`, `ge = 5`, `γ = 2`. -/
theorem c2_identical_states_witness :
    (0 : ℝ) < 1 ∧ (1 : ℝ) < 2 ∧ TINY_NUMBER ≤ (1 : ℝ) ∧
    (Calculate_Exact_Fluxes (conservedSymmetric 1 1 2 3 1 5 2) 2).f0 = 1 * 1 ∧
    (Calculate_Exact_Fluxes (conservedSymmetric 1 1 2 3 1 5 2) 2).starPm = 1 := by
  refine ⟨by norm_num, by norm_num, by norm_num [TINY_NUMBER], ?_, ?_⟩
  · exact (c2_identical_states 1 1 2 3 1 5 2 (by norm_num) (by norm_num)
      (by norm_num [TINY_NUMBER])).1
  · exact (c2_identical_states 1 1 2 3 1 5 2 (by norm_num) (by norm_num)
      (by norm_num [TINY_NUMBER])).2.2.2.2.2.2.1

/-! ## Claim C3: the Newton iteration of `starpu` -/

theorem starpuGo_count_le (dl vxl pl cl dr vxr pr cr gamma : ℝ) :
    ∀ (fuel : ℕ) (pold : ℝ),
      (starpuGo dl vxl pl cl dr vxr pr cr gamma fuel pold).2.2.2 ≤ fuel := by
  intro fuel
  induction fuel with
  | zero => intro pold; simp [starpuGo]
  | succ n ih =>
      intro pold
      cases n with
      | zero =>
          rw [starpuGo]
          split_ifs <;> simp
      | succ m =>
          rw [starpuGo]
          split_ifs with h h2
          · simp
          · dsimp only
            exact Nat.succ_le_succ (ih _)
          · dsimp only
            exact Nat.succ_le_succ (ih _)

theorem starpuGo_count_pos (dl vxl pl cl dr vxr pr cr gamma : ℝ) (n : ℕ) (pold : ℝ) :
    1 ≤ (starpuGo dl vxl pl cl dr vxr pr cr gamma (n + 1) pold).2.2.2 := by
  cases n with
  | zero =>
      rw [starpuGo]
      split_ifs <;> simp
  | succ m =>
      rw [starpuGo]
      split_ifs with h h2
      · simp
      · dsimp only
        exact Nat.le_add_left 1 _
      · dsimp only
        exact Nat.le_add_left 1 _

/-- **C3 (amended).** `starpu`'s Newton loop (`for (i = 0; i <= nriter; i++)`
with `nriter = 20`) executes at least one and at most **21** loop bodies (not
20: the loop bound is inclusive); it terminates as soon as the convergence
test `2|(p - p_old)/(p + p_old)| ≤ 1e-6` (the absolute value taken of the
whole quotient, as in `2.0*fabs((*p - pold)/(*p + pold))`) holds, keeping
that iterate; on non-convergence it keeps the last (clamped) iterate; and
the returned star velocity is `0.5*(vxl + vxr + fr - fl)` with `fl`, `fr`
the last evaluated pressure-function values. -/
theorem c3_starpu_iteration_structure (dl vxl pl cl dr vxr pr cr gamma : ℝ) :
    1 ≤ starpuCount dl vxl pl cl dr vxr pr cr gamma ∧
    starpuCount dl vxl pl cl dr vxr pr cr gamma ≤ 21 ∧
    (∀ (fuel : ℕ) (pold : ℝ),
      2 * |((starpuStep dl vxl pl cl dr vxr pr cr gamma pold).1 - pold) /
        ((starpuStep dl vxl pl cl dr vxr pr cr gamma pold).1 + pold)| ≤ 1e-6 →
      starpuGo dl vxl pl cl dr vxr pr cr gamma (fuel + 1) pold =
        ((starpuStep dl vxl pl cl dr vxr pr cr gamma pold).1,
         (starpuStep dl vxl pl cl dr vxr pr cr gamma pold).2.1,
         (starpuStep dl vxl pl cl dr vxr pr cr gamma pold).2.2, 1)) ∧
    starpu dl vxl pl cl dr vxr pr cr gamma =
      ((starpuGo dl vxl pl cl dr vxr pr cr gamma 21
          (guessp dl vxl pl cl dr vxr pr cr gamma)).1,
       0.5 * (vxl + vxr +
         (starpuGo dl vxl pl cl dr vxr pr cr gamma 21
           (guessp dl vxl pl cl dr vxr pr cr gamma)).2.2.1 -
         (starpuGo dl vxl pl cl dr vxr pr cr gamma 21
           (guessp dl vxl pl cl dr vxr pr cr gamma)).2.1)) := by
  refine ⟨?_, ?_, ?_, rfl⟩
  · exact starpuGo_count_pos dl vxl pl cl dr vxr pr cr gamma 20 _
  · exact starpuGo_count_le dl vxl pl cl dr vxr pr cr gamma 21 _
  · intro fuel pold h
    exact starpuGo_first_step dl vxl pl cl dr vxr pr cr gamma fuel pold h

/-- Witness for `c3_starpu_iteration_structure`: with identical left/right
states `(d, u, p, c) = (1, 0, 1, 1)` and `γ = 3` the first Newton step is a
fixed point, the convergence test holds at once, and the loop stops after a
single body. -/
theorem c3_starpu_iteration_structure_witness :
    1 ≤ starpuCount 1 0 1 1 1 0 1 1 3 ∧
    starpuGo 1 0 1 1 1 0 1 1 3 (20 + 1) 1 = (1, 0, 0, 1) := by
  have hstep := starpuStep_symm 1 0 1 1 3 (by norm_num)
  constructor
  · exact (c3_starpu_iteration_structure 1 0 1 1 1 0 1 1 3).1
  · have hconv : 2 * |((starpuStep 1 0 1 1 1 0 1 1 3 1).1 - 1) /
        ((starpuStep 1 0 1 1 1 0 1 1 3 1).1 + 1)| ≤ 1e-6 := by
      rw [hstep]
      norm_num
    rw [(c3_starpu_iteration_structure 1 0 1 1 1 0 1 1 3).2.2.1 20 1 hconv, hstep]

theorem c3_prefun (c q : ℝ) (h0 : 0 < q) :
    prefun q (1 / 2) 0 c 3 = (Real.sqrt q, (Real.sqrt q)⁻¹ / 2) := by
  have hsqpos : 0 < Real.sqrt q := Real.sqrt_pos.mpr h0
  have hsqne : Real.sqrt q ≠ 0 := hsqpos.ne'
  have hsq : Real.sqrt q * Real.sqrt q = q := Real.mul_self_sqrt h0.le
  unfold prefun
  rw [if_neg (not_le.mpr h0)]
  rw [show ((3 : ℝ) - 1) / (3 + 1) * 0 + q = q from by ring,
    show (2 / ((3 : ℝ) + 1) / (1 / 2)) = 1 from by norm_num, one_div, Real.sqrt_inv]
  refine Prod.ext ?_ ?_
  · show (q - 0) * (Real.sqrt q)⁻¹ = Real.sqrt q
    rw [sub_zero, ← hsq]
    field_simp
  · show (1 - 0.5 * (q - 0) / q) * (Real.sqrt q)⁻¹ = (Real.sqrt q)⁻¹ / 2
    rw [sub_zero, mul_div_assoc, div_self h0.ne']
    ring

theorem c3_step_eval (c q : ℝ) (h0 : 0 < q) :
    starpuStep (1 / 2) 1 0 c (1 / 2) 0 0 c 3 q =
      (Real.sqrt q - q, Real.sqrt q, Real.sqrt q) := by
  have hsqpos : 0 < Real.sqrt q := Real.sqrt_pos.mpr h0
  have hsqne : Real.sqrt q ≠ 0 := hsqpos.ne'
  have hq : q = Real.sqrt q * Real.sqrt q := (Real.mul_self_sqrt h0.le).symm
  unfold starpuStep
  rw [c3_prefun c q h0]
  refine Prod.ext ?_ rfl
  show q - (Real.sqrt q + Real.sqrt q + 0 - 1) / ((Real.sqrt q)⁻¹ / 2 + (Real.sqrt q)⁻¹ / 2)
      = Real.sqrt q - q
  rw [show (Real.sqrt q)⁻¹ / 2 + (Real.sqrt q)⁻¹ / 2 = (Real.sqrt q)⁻¹ from by ring,
    div_eq_mul_inv, inv_inv]
  nlinarith [hq]

theorem c3_change_not_small (q : ℝ) (h0 : 0 < q) (h16 : q ≤ 1 / 16) :
    ¬ 2 * |(Real.sqrt q - q - q) / (Real.sqrt q - q + q)| ≤ 1e-6 := by
  have hsqpos : 0 < Real.sqrt q := Real.sqrt_pos.mpr h0
  have hsq : Real.sqrt q * Real.sqrt q = q := Real.mul_self_sqrt h0.le
  have h4 : Real.sqrt q ≤ 1 / 4 := by
    have := Real.sqrt_le_sqrt h16
    rwa [show ((1 : ℝ) / 16) = (1 / 4) ^ 2 from by norm_num,
      Real.sqrt_sq (by norm_num : (0 : ℝ) ≤ 1 / 4)] at this
  have hq4 : 4 * q ≤ Real.sqrt q := by nlinarith [hsq, hsqpos]
  rw [show Real.sqrt q - q + q = Real.sqrt q from by ring, abs_div,
    abs_of_pos hsqpos, abs_of_nonneg (by linarith : (0 : ℝ) ≤ Real.sqrt q - q - q)]
  have hlb : 1 ≤ 2 * ((Real.sqrt q - q - q) / Real.sqrt q) := by
    rw [← mul_div_assoc, le_div_iff₀ hsqpos]
    linarith
  linarith

theorem c3_go_count (c : ℝ) :
    ∀ (m : ℕ) (q : ℝ), 0 < q → q ≤ (1 / 2 : ℝ) ^ (2 ^ (m + 2)) →
      (starpuGo (1 / 2) 1 0 c (1 / 2) 0 0 c 3 (m + 1) q).2.2.2 = m + 1 := by
  intro m
  induction m with
  | zero =>
      intro q h0 hb
      have h16 : q ≤ 1 / 16 := le_trans hb (by norm_num)
      rw [starpuGo, c3_step_eval c q h0]
      rw [if_neg (c3_change_not_small q h0 h16)]
  | succ m ih =>
      intro q h0 hb
      have h16 : q ≤ 1 / 16 := by
        refine le_trans hb ?_
        calc ((1 : ℝ) / 2) ^ (2 ^ (m + 3)) ≤ (1 / 2) ^ (4 : ℕ) := by
              refine pow_le_pow_of_le_one (by norm_num) (by norm_num) ?_
              have : 2 ^ 2 ≤ 2 ^ (m + 3) := Nat.pow_le_pow_right (by norm_num) (by omega)
              omega
          _ = 1 / 16 := by norm_num
      have hq1 : q < 1 := lt_of_le_of_lt h16 (by norm_num)
      have hsqpos : 0 < Real.sqrt q := Real.sqrt_pos.mpr h0
      have hsq : Real.sqrt q * Real.sqrt q = q := Real.mul_self_sqrt h0.le
      have hqlt : q < Real.sqrt q := by
        have hs1 : Real.sqrt q < 1 := by
          rw [show (1 : ℝ) = Real.sqrt 1 from Real.sqrt_one.symm]
          exact Real.sqrt_lt_sqrt h0.le hq1
        nlinarith
      show (starpuGo (1 / 2) 1 0 c (1 / 2) 0 0 c 3 (m + 2) q).2.2.2 = m + 2
      rw [starpuGo, c3_step_eval c q h0]
      rw [if_neg (c3_change_not_small q h0 h16),
        if_neg (not_lt.mpr (by linarith : (0 : ℝ) ≤ Real.sqrt q - q))]
      have hnext : Real.sqrt q - q ≤ (1 / 2 : ℝ) ^ (2 ^ (m + 2)) := by
        have h1 : Real.sqrt q - q ≤ Real.sqrt q := by linarith
        have hb2 : q ≤ ((1 / 2 : ℝ) ^ (2 ^ (m + 2))) ^ 2 := by
          rw [← pow_mul]
          have he : 2 ^ (m + 2) * 2 = 2 ^ (m + 1 + 2) := by
            show 2 ^ (m + 2) * 2 = 2 ^ (m + 3)
            rw [← pow_succ]
          rw [he]
          exact hb
        have h2 := Real.sqrt_le_sqrt hb2
        rw [Real.sqrt_sq (by positivity)] at h2
        linarith
      dsimp only
      rw [ih (Real.sqrt q - q) (by linarith) hnext]

theorem c3_guessp_general (c : ℝ) (hc : 0 < c) :
    guessp (1 / 2) 1 0 c (1 / 2) 0 0 c 3 = Real.sqrt c / 4 := by
  have hsqpos : 0 < Real.sqrt c := Real.sqrt_pos.mpr hc
  have hraw : ppvRaw (1 / 2) 1 0 c (1 / 2) 0 0 c = c / 4 := by
    unfold ppvRaw
    ring
  have hclamp : ppvClamped (1 / 2) 1 0 c (1 / 2) 0 0 c = c / 4 := by
    unfold ppvClamped
    rw [hraw, if_neg (not_lt.mpr (div_nonneg hc.le (by norm_num)))]
  simp only [guessp, hclamp]
  have hgl : Real.sqrt ((2 / (((3 : ℝ) + 1) * (1 / 2))) / (((3 : ℝ) - 1) / (3 + 1) * 0 + c / 4))
      = 2 / Real.sqrt c := by
    have h1 : (2 / (((3 : ℝ) + 1) * (1 / 2))) / (((3 : ℝ) - 1) / (3 + 1) * 0 + c / 4)
        = 4 / c := by
      rw [show ((3 : ℝ) - 1) / (3 + 1) * 0 + c / 4 = c / 4 from by ring,
        show (2 / (((3 : ℝ) + 1) * (1 / 2))) = 1 from by norm_num, one_div_div]
    rw [h1, show (4 : ℝ) / c = (2 / Real.sqrt c) ^ 2 from by
      rw [div_pow, Real.sq_sqrt hc.le]
      norm_num]
    exact Real.sqrt_sq (div_nonneg (by norm_num) hsqpos.le)
  rw [hgl]
  have hp0 : (2 / Real.sqrt c * 0 + 2 / Real.sqrt c * 0 - ((0 : ℝ) - 1)) /
      (2 / Real.sqrt c + 2 / Real.sqrt c) = Real.sqrt c / 4 := by
    rw [show (2 / Real.sqrt c * 0 + 2 / Real.sqrt c * 0 - ((0 : ℝ) - 1)) = 1 from by ring,
      show 2 / Real.sqrt c + 2 / Real.sqrt c = 4 / Real.sqrt c from by ring, one_div_div]
  rw [hp0, if_neg (not_lt.mpr (div_nonneg hsqpos.le (by norm_num)))]

theorem c3_guessp_eval :
    guessp (1 / 2) 1 0 ((1 / 2 : ℝ) ^ (8388604 : ℕ)) (1 / 2) 0 0
      ((1 / 2 : ℝ) ^ (8388604 : ℕ)) 3 = (1 / 2 : ℝ) ^ (4194304 : ℕ) := by
  rw [c3_guessp_general ((1 / 2 : ℝ) ^ (8388604 : ℕ)) (by positivity)]
  rw [show Real.sqrt ((1 / 2 : ℝ) ^ (8388604 : ℕ)) = (1 / 2 : ℝ) ^ (4194302 : ℕ) from by
    rw [show (8388604 : ℕ) = 4194302 * 2 from by norm_num, pow_mul,
      Real.sqrt_sq (by positivity)]]
  rw [show ((1 : ℝ) / 2) ^ (4194302 : ℕ) / 4 = ((1 : ℝ) / 2) ^ (4194304 : ℕ) from by
    rw [show (4194304 : ℕ) = 4194302 + 2 from by norm_num, pow_add,
      show ((1 : ℝ) / 2) ^ (2 : ℕ) = 1 / 4 from by norm_num, div_eq_mul_one_div]]

/-- **C3 (counterexample).** With `pl = pr = 0`, `dl = dr = 1/2`, `γ = 3`,
`vxl = 1`, `vxr = 0` and `cl = cr = (1/2)^8388604`, the Newton map is
`p ↦ √p - p`, the initial guess is `(1/2)^(2^22)`, the convergence test
fails at every one of the 21 allowed loop bodies, and the loop executes all
21 of them — so `starpu` does not perform "at most 20 iterations". -/
theorem c3_counterexample :
    starpuCount (1 / 2) 1 0 ((1 / 2 : ℝ) ^ (8388604 : ℕ)) (1 / 2) 0 0
      ((1 / 2 : ℝ) ^ (8388604 : ℕ)) 3 = 21 := by
  unfold starpuCount
  rw [c3_guessp_eval]
  have h := c3_go_count ((1 / 2 : ℝ) ^ (8388604 : ℕ)) 20 ((1 / 2 : ℝ) ^ (4194304 : ℕ))
    (by positivity) (by rw [show (2 ^ (20 + 2) : ℕ) = 4194304 from by norm_num])
  exact h

/-! ## Claim C1: floors, clamps, and sign of the sampled state -/

/-- **C1 (amended).** `Calculate_Exact_Fluxes` floors the derived left and
right pressures at `TINY_NUMBER`; a negative PVRS estimate is clamped to
**zero** (not to a positive value — see the counterexample), while a
negative Newton iterate is clamped to the positive `TOL = 1e-6`; the
computation is a total function (it never aborts).  The sampled density
and pressure are nonnegative provided the input densities, pressures and
sound speeds are nonnegative/positive, the star pressure `pm` is
nonnegative, and the rarefaction-fan sound-speed expressions are
nonnegative. -/
theorem c1_floor_clamp_sample (cW : Fin 12 → ℝ)
    (pm vm dl vxl pl cl dr vxr pr cr gamma : ℝ)
    (hdl : 0 ≤ dl) (hdr : 0 ≤ dr) (hpl : 0 < pl) (hpr : 0 < pr)
    (hcl : 0 ≤ cl) (hcr : 0 ≤ cr) (hg : 1 < gamma) (hpm : 0 ≤ pm)
    (hfanl : 0 ≤ cl + (gamma - 1) / 2 * vxl) (hfanr : 0 ≤ cr - (gamma - 1) / 2 * vxr) :
    TINY_NUMBER ≤ flooredPl cW gamma ∧
    TINY_NUMBER ≤ flooredPr cW gamma ∧
    0 ≤ ppvClamped dl vxl pl cl dr vxr pr cr ∧
    0 ≤ (sample pm vm dl vxl pl cl dr vxr pr cr gamma).1 ∧
    0 ≤ (sample pm vm dl vxl pl cl dr vxr pr cr gamma).2.2 := by
  have hgp1 : (0 : ℝ) < gamma + 1 := by linarith
  have hcL : 0 ≤ (2 / (gamma + 1)) * (cl + (gamma - 1) / 2 * vxl) :=
    mul_nonneg (by positivity) hfanl
  have hcR : 0 ≤ (2 / (gamma + 1)) * (cr - (gamma - 1) / 2 * vxr) :=
    mul_nonneg (by positivity) hfanr
  have hbeta : (0 : ℝ) ≤ (gamma - 1) / (gamma + 1) := by
    apply div_nonneg <;> linarith
  refine ⟨le_max_right _ _, le_max_right _ _, ?_, ?_⟩
  · unfold ppvClamped
    split_ifs with h
    · exact le_rfl
    · exact not_lt.mp h
  · unfold sample
    dsimp only
    split_ifs <;>
      refine ⟨?_, ?_⟩ <;>
      first
        | exact hdl
        | exact hdr
        | exact hpl.le
        | exact hpr.le
        | exact hpm
        | exact mul_nonneg hdl (Real.rpow_nonneg (div_nonneg hpm hpl.le) _)
        | exact mul_nonneg hdr (Real.rpow_nonneg (div_nonneg hpm hpr.le) _)
        | exact mul_nonneg hdl (Real.rpow_nonneg (div_nonneg hcL hcl) _)
        | exact mul_nonneg hpl.le (Real.rpow_nonneg (div_nonneg hcL hcl) _)
        | exact mul_nonneg hdr (Real.rpow_nonneg (div_nonneg hcR hcr) _)
        | exact mul_nonneg hpr.le (Real.rpow_nonneg (div_nonneg hcR hcr) _)
        | exact div_nonneg (mul_nonneg hdl (add_nonneg (div_nonneg hpm hpl.le) hbeta))
            (add_nonneg (mul_nonneg (div_nonneg hpm hpl.le) hbeta) zero_le_one)
        | exact div_nonneg (mul_nonneg hdr (add_nonneg (div_nonneg hpm hpr.le) hbeta))
            (add_nonneg (mul_nonneg (div_nonneg hpm hpr.le) hbeta) zero_le_one)

/-- Witness for `c1_floor_clamp_sample` at a concrete physical state. -/
theorem c1_floor_clamp_sample_witness :
    TINY_NUMBER ≤ flooredPl (fun _ => 1) 2 ∧
    0 ≤ ppvClamped 1 0 1 1 1 0 1 1 ∧
    0 ≤ (sample 1 0 1 0 1 1 1 0 1 1 2).1 ∧
    0 ≤ (sample 1 0 1 0 1 1 1 0 1 1 2).2.2 := by
  have h := c1_floor_clamp_sample (fun _ => 1) 1 0 1 0 1 1 1 0 1 1 2
    (by norm_num) (by norm_num) (by norm_num) (by norm_num) (by norm_num) (by norm_num)
    (by norm_num) (by norm_num) (by norm_num) (by norm_num)
  exact ⟨h.1, h.2.2.1, h.2.2.2.1, h.2.2.2.2⟩

/-- **C1 counterexample.** The clamp `if (ppv < 0.0) ppv = 0.0` in `guessp`
sets a negative PVRS estimate to exactly **zero**, not to a small positive
value: on the colliding pair `dl = dr = 1`, `pl = pr = 3`, `cl = cr = 3`,
`vxl = -10^12`, `vxr = 10^12` the raw PVRS estimate `3 - 3*10^12` is
negative, and the clamped estimate used by the two-shock guess is `0`. -/
theorem c1_counterexample :
    ppvRaw 1 (-1000000000000) 3 3 1 1000000000000 3 3 < 0 ∧
    ppvClamped 1 (-1000000000000) 3 3 1 1000000000000 3 3 = 0 := by
  have hraw : ppvRaw 1 (-1000000000000) 3 3 1 1000000000000 3 3 < 0 := by
    unfold ppvRaw
    norm_num
  refine ⟨hraw, ?_⟩
  unfold ppvClamped
  rw [if_pos hraw]
